import Mathlib

/-!
Shallow embedding of the relational persistence engine of the repository
(class `Model` together with its `Database`/`types` collaborators).
JavaScript objects live on an explicit heap of numbered object identities,
because the engine distinguishes the caller's object references from the
shallow copies it makes, and it mutates related objects in place.
Database rows are plain records (no references); tables are row lists.
External collaborators (knex, the `i` inflector, `uuid`, `Date`,
`JSON.stringify`) are modelled as parameters or as deterministic stand-ins:
fresh uuids and dates come from counters in the state, and the serialized
text produced by `JSON.stringify` is an uninterpreted deterministic
rendering, since no engine code path inspects it.
-/

set_option autoImplicit false
set_option linter.unusedVariables false

namespace NData

/-- A JavaScript runtime value as the engine needs it: scalars, `null`,
`undefined`, dates, references to heap objects, and arrays of object
references (the shape relation fields take). -/
inductive Value where
  | vStr (s : String)
  | vNum (n : Int)
  | vBool (b : Bool)
  | vNull
  | vUndefined
  | vDate (t : Nat)
  | vRef (o : Nat)
  | vArr (os : List Nat)
  deriving Repr, DecidableEq

/-- JavaScript truthiness: `null`, `undefined`, `false`, `0` and the empty
string are falsy, everything else (dates, objects, arrays) is truthy. -/
def Value.truthy : Value → Bool
  | .vStr s => !(s == "")
  | .vNum n => !(n == 0)
  | .vBool b => b
  | .vNull => false
  | .vUndefined => false
  | .vDate _ => true
  | .vRef _ => true
  | .vArr _ => true

/-- JavaScript `typeof v === "object"`: true for `null`, dates, plain
objects and arrays; false for strings, numbers, booleans, `undefined`. -/
def Value.isObjectType : Value → Bool
  | .vNull => true
  | .vDate _ => true
  | .vRef _ => true
  | .vArr _ => true
  | _ => false

/-- Lookup in an association list (first binding wins). -/
def assocFind {κ ν : Type} [BEq κ] (l : List (κ × ν)) (k : κ) : Option ν :=
  match l.find? (fun p => p.1 == k) with
  | some p => some p.2
  | none => none

/-- Update (or append) a binding in an association list, keeping order. -/
def assocSet {κ ν : Type} [BEq κ] : List (κ × ν) → κ → ν → List (κ × ν)
  | [], k, v => [(k, v)]
  | p :: rest, k, v => if p.1 == k then (k, v) :: rest else p :: assocSet rest k v

/-- A JavaScript object record: ordered fields with unique names
(uniqueness is kept by `setField`). -/
abbrev Record := List (String × Value)

/-- Read a field; a missing field reads as `undefined`, as in JavaScript. -/
def getField (r : Record) (k : String) : Value :=
  match assocFind r k with
  | some v => v
  | none => .vUndefined

/-- Does the record have the field at all (`Object.keys` membership)? -/
def hasField (r : Record) (k : String) : Bool :=
  (assocFind r k).isSome

/-- Set (or add) a field, keeping the original field order on overwrite. -/
def setField (r : Record) (k : String) (v : Value) : Record :=
  assocSet r k v

/-- Delete a field (JavaScript `delete object[key]`). -/
def removeField : Record → String → Record
  | [], _ => []
  | p :: rest, k => if p.1 == k then removeField rest k else p :: removeField rest k

/-- `Object.keys` of a record. -/
def recordKeys (r : Record) : List String :=
  r.map (fun p => p.1)

/-- Merge the fields of `patch` into `row` (the column set an SQL `update`
writes). -/
def mergeRecord (row : Record) (patch : Record) : Record :=
  patch.foldl (fun r p => setField r p.1 p.2) row

/-- Heap of JavaScript objects: allocations get the next identity. -/
structure Heap where
  objs : List (Nat × Record)
  next : Nat
  deriving Repr, DecidableEq

/-- Dereference an object; an unknown identity reads as an empty object. -/
def Heap.get (h : Heap) (o : Nat) : Record :=
  match assocFind h.objs o with
  | some r => r
  | none => []

/-- Overwrite an object in place. -/
def Heap.set (h : Heap) (o : Nat) (r : Record) : Heap :=
  { objs := assocSet h.objs o r, next := h.next }

/-- Allocate a fresh object holding `r` and return its identity. -/
def Heap.alloc (h : Heap) (r : Record) : Heap × Nat :=
  ({ objs := (h.next, r) :: h.objs, next := h.next + 1 }, h.next)

/-- A database table is a list of rows; a row is a plain record. -/
abbrev Table := List Record

/-- The four relation kinds (`enum RelationTypes` in `types.ts`). -/
inductive RelationTypes where
  | hasMany
  | belongsTo
  | hasAndBelongsToMany
  | hasOne
  deriving Repr, DecidableEq

/-- A canonical relation as the `Model` constructor builds it: `sourceKey`
and `throughTable` are only ever assigned for `hasAndBelongsToMany`. -/
structure RelationDefn where
  name : String
  type : RelationTypes
  many : Bool
  tableName : String
  key : String
  sourceKey : Option String := none
  throughTable : Option String := none
  dependent : Bool
  deriving Repr, DecidableEq

/-- The user-supplied relation shorthand (interface `RelationDefinition`
before the constructor normalizes it): exactly one of the four kind
markers is expected, plus optional overrides. -/
structure RelationInput where
  hasAndBelongsToMany : Option String := none
  belongsTo : Option String := none
  hasMany : Option String := none
  hasOne : Option String := none
  dependent : Option Bool := none
  through : Option String := none
  primaryKey : Option String := none
  foreignKey : Option String := none
  table : Option String := none
  deriving Repr, DecidableEq

/-- JavaScript truthiness of an optional string option (`if (relation.x)`). -/
def strTruthy : Option String → Bool
  | some s => !(s == "")
  | none => false

/-- JavaScript `x || d` for an optional string override. -/
def orDefaultStr (o : Option String) (d : String) : String :=
  match o with
  | some s => if s == "" then d else s
  | none => d

/-- The external `i()` inflector collaborator, kept abstract. -/
structure Inflector where
  singularize : String → String
  pluralize : String → String

/-- `[a, b].sort().join("_")` for two strings (JavaScript default sort is
lexicographic). -/
def sortedJoinPair (a b : String) : String :=
  if a ≤ b then a ++ "_" ++ b else b ++ "_" ++ a

/-- Errors the engine can raise: `RelationError` and `ContextError` from
`types.ts`, JavaScript `TypeError`s from dereferencing `undefined`, errors
thrown by user hooks, and exhaustion of the recursion fuel of this model
(the source recursion is unbounded). -/
inductive JsErr where
  | typeError (msg : String)
  | relationError (msg : String)
  | contextError (msg : String)
  | hookError
  | outOfFuel
  deriving Repr, DecidableEq

/-- The `Model` constructor's normalization of one declared relation
(`util.ts` L86-126), parameterized by the inflector. Branches are tried in
source order; an unrecognized shorthand raises `RelationError`. -/
def normalizeRelation (inflect : Inflector) (tableName : String) (relationName : String)
    (relation : RelationInput) : Except JsErr RelationDefn :=
  if strTruthy relation.hasAndBelongsToMany then
    .ok { name := relationName
          many := true
          type := .hasAndBelongsToMany
          -- through table name will generally be a combination of the two tables (alpha sorted)
          throughTable := some (orDefaultStr relation.through
            (sortedJoinPair tableName (inflect.pluralize relationName)))
          tableName := orDefaultStr relation.table (inflect.pluralize relationName)
          sourceKey := some (orDefaultStr relation.primaryKey
            (inflect.singularize tableName ++ "Id"))
          key := orDefaultStr relation.foreignKey (inflect.singularize relationName ++ "Id")
          dependent := false }
  else if strTruthy relation.belongsTo then
    .ok { name := relationName
          many := false
          type := .belongsTo
          tableName := orDefaultStr relation.table
            (inflect.pluralize (relation.belongsTo.getD ""))
          key := orDefaultStr relation.foreignKey (inflect.singularize relationName ++ "Id")
          dependent := false }
  else if strTruthy relation.hasMany then
    .ok { name := relationName
          many := true
          type := .hasMany
          tableName := orDefaultStr relation.table (inflect.pluralize (relation.hasMany.getD ""))
          key := orDefaultStr relation.foreignKey (inflect.singularize tableName ++ "Id")
          dependent := relation.dependent == some true }
  else if strTruthy relation.hasOne then
    .ok { name := relationName
          many := false
          type := .hasOne
          tableName := orDefaultStr relation.table (inflect.pluralize (relation.hasOne.getD ""))
          key := orDefaultStr relation.foreignKey (inflect.singularize tableName ++ "Id")
          dependent := relation.dependent == some true }
  else
    .error (.relationError "Unknown relation type")

/-- The per-table model options the engine consults at run time: the
canonical relation registry and the registered hooks. A hook is modelled
by whether running it throws; hooks that do not throw act as the identity
(the claims under verification quantify only over hook outcomes). -/
structure ModelSpec where
  tableName : String
  availableRelations : List (String × RelationDefn) := []
  hooks : List (String × Bool) := []
  deriving Repr, DecidableEq

/-- The database context: tables of rows plus the model registry
(`Database.models`, the lookup-by-table-name registry). -/
structure Database where
  tables : List (String × Table)
  models : List (String × ModelSpec)
  deriving Repr, DecidableEq

def Database.table (db : Database) (name : String) : Table :=
  match assocFind db.tables name with
  | some t => t
  | none => []

def Database.setTable (db : Database) (name : String) (t : Table) : Database :=
  { db with tables := assocSet db.tables name t }

/-- `Database.model(tableName)`: an unregistered table name yields a bare
model with no relations, hooks or contexts (`Database.ts` L66-76). -/
def Database.model (db : Database) (name : String) : ModelSpec :=
  match db.models.find? (fun p => p.1 == name) with
  | some p => p.2
  | none => { tableName := name }

/-- Whether the hook registered under `hookName` throws when run
(`Model.runHook`, `util.ts` L601-610: absent hooks are a no-op). -/
def hookThrows (spec : ModelSpec) (hookName : String) : Bool :=
  match spec.hooks.find? (fun p => p.1 == hookName) with
  | some p => p.2
  | none => false

/-- `QueryOptions` as the save/destroy pipelines use them. The source's
`exists` field is spelled `exists?` here (`exists` is reserved in Lean);
transaction scoping is the identity in this model. -/
structure QOpts where
  exists? : Option Bool := none
  updatedAt : Option Nat := none
  skipHooks : Bool := false
  deriving Repr, DecidableEq

/-- Whole engine state: the object heap, the database, and the counters
standing in for `uuid()` and `new Date()`. -/
structure St where
  heap : Heap
  db : Database
  nextUuid : Nat
  clock : Nat
  deriving Repr, DecidableEq

/-- `uuid()`: deterministic fresh-identifier supply. -/
def stUuid (st : St) : St × String :=
  ({ st with nextUuid := st.nextUuid + 1 }, "uuid-" ++ toString st.nextUuid)

/-- `new Date()`: a strictly monotone clock; each call returns a fresh,
strictly later timestamp. -/
def stNewDate (st : St) : St × Nat :=
  ({ st with clock := st.clock + 1 }, st.clock)

/-- Stand-in for `JSON.stringify`: a deterministic rendering. The engine
never inspects the produced text, so references are rendered by identity. -/
def jsonValue : Value → String
  | .vStr s => "\x22" ++ s ++ "\x22"
  | .vNum n => toString n
  | .vBool b => cond b "true" "false"
  | .vNull => "null"
  | .vUndefined => "undefined"
  | .vDate t => "date:" ++ toString t
  | .vRef o => "object:" ++ toString o
  | .vArr os => "array:" ++ String.intercalate "," (os.map (fun o => toString o))

/-- The per-value normalization of `Model.save` (`util.ts` L271-280): any
object-typed value is serialized to JSON text, then the literal string
`"null"` is coerced to an actual `null`. -/
def coerceValue (v : Value) : Value :=
  let v1 := if v.isObjectType then Value.vStr (jsonValue v) else v
  if v1 == Value.vStr "null" then Value.vNull else v1

/-- The value-normalization loop of `Model.save` (`util.ts` L271-280),
applied to every field of the row about to be written. -/
def savingStringify (r : Record) : Record :=
  r.map (fun p => (p.1, coerceValue p.2))

/-- The existence probe of `Model.save` (`util.ts` L286-292): the caller's
`exists` flag wins, otherwise the table is queried for a row with this id. -/
def recordExists (db : Database) (tableName : String) (idv : Value) (opts : QOpts) : Bool :=
  match opts.exists? with
  | some b => b
  | none => ((db.table tableName).filter (fun row => getField row "id" == idv)).length > 0

/-- The relations `Model.destroy` cascades into (`util.ts` L212-215):
every `dependent` relation, plus every `hasAndBelongsToMany` relation
regardless of its `dependent` flag (join rows must always be cleaned up). -/
def destroyDependentRelations (spec : ModelSpec) : List RelationDefn :=
  (spec.availableRelations.map (fun p => p.2)).filter
    (fun r => r.dependent || r.type == RelationTypes.hasAndBelongsToMany)

/-- The table and key column a cascade delete targets (`util.ts`
L220-226): the join table keyed by the source key for
`hasAndBelongsToMany`, the related table keyed by the foreign key
otherwise. -/
def destroyCascadeTarget (dr : RelationDefn) : String × String :=
  (if dr.type == RelationTypes.hasAndBelongsToMany then dr.throughTable.getD ""
   else dr.tableName,
   if dr.type == RelationTypes.hasAndBelongsToMany then dr.sourceKey.getD ""
   else dr.key)

/-- One cascade delete of `Model.destroy` (`util.ts` L224-226): delete the
rows of the target table whose key column holds the destroyed identity. -/
def cascadeStep (objectId : Value) (db : Database) (dr : RelationDefn) : Database :=
  let target := destroyCascadeTarget dr
  db.setTable target.1
    ((db.table target.1).filter (fun row => !(getField row target.2 == objectId)))

/-- `Model.destroy` for a single record (`util.ts` L194-236): the
`beforeDestroy` hook can cancel the destroy (the thrown error is swallowed
and the unmodified object is returned); otherwise the row is deleted by
identity and every `dependent` relation — plus every `hasAndBelongsToMany`
relation's join table — has its matching rows deleted. `afterDestroy` is
fired without being awaited, so an error thrown there never reaches the
caller. -/
def destroy (st : St) (tableName : String) (objRef : Nat) (opts : QOpts) :
    Except JsErr (St × Nat) :=
  let spec := st.db.model tableName
  -- beforeDestroy hook can cancel the destroy (L200-206)
  if !opts.skipHooks && hookThrows spec "beforeDestroy" then
    .ok (st, objRef)
  else
    let objectId := getField (st.heap.get objRef) "id"
    -- delete the record's own row by identity (L208-210)
    let db1 := st.db.setTable tableName
      ((st.db.table tableName).filter (fun row => !(getField row "id" == objectId)))
    -- check over dependent hasMany (and hasAndBelongsToMany join) relations (L212-229)
    let db2 := (destroyDependentRelations spec).foldl (cascadeStep objectId) db1
    -- afterDestroy is not awaited (L231-233); a hook error there is an
    -- unhandled rejection and does not propagate
    .ok ({ st with db := db2 }, objRef)

/-- The type of the recursive save entry point threaded into the relation
strategies (the source reaches it as `RelatedModel.save`). -/
abbrev SaveFn := St → String → Nat → QOpts → Except JsErr (St × Nat)

/-- What a relation strategy returns to the save pipeline (interface
`SavedRelation` in `types.ts`). -/
structure SavedRelation where
  name : String
  value : Value
  belongsToKey : Option String := none
  belongsToValue : Value := .vUndefined

/-- `options.updatedAt` as a column value (an absent option reads as
`undefined`). -/
def optDate : Option Nat → Value
  | some t => .vDate t
  | none => .vUndefined

/-- One iteration of the `saveHasManyRelation` save loop (`util.ts`
L681-690): set the related object's foreign key to the parent's identity
in place, then save it with the per-element existence flag. -/
def hasManyStep (saveFn : SaveFn) (relation : RelationDefn) (objectId : Value)
    (existingRelatedObjectIds : List Value) (opts : QOpts)
    (acc : Except JsErr (St × List Nat)) (o : Nat) : Except JsErr (St × List Nat) :=
  match acc with
  | .error e => .error e
  | .ok (st, saved) =>
    let relRec := setField (st.heap.get o) relation.key objectId
    let st := { st with heap := st.heap.set o relRec }
    let ex := existingRelatedObjectIds.contains (getField relRec "id")
    match saveFn st relation.tableName o { opts with exists? := some ex } with
    | .error e => .error e
    | .ok (st, savedRef) => .ok (st, saved ++ [savedRef])

/-- The truthy identities collected from the supplied related objects
(`util.ts` L663-667: `newRelatedObjectIds = relatedObjects.map(r =>
r.id).filter(Boolean)`). -/
def hasManyNewIds (st : St) (relatedObjects : List Nat) : List Value :=
  (relatedObjects.map (fun o => getField (st.heap.get o) "id")).filter
    (fun v => v.truthy)

/-- The related table after the detach update (`util.ts` L669-673): any row
keyed to this parent whose id is not in the new related set has its
foreign-key column set to null. -/
def hasManyDetach (st : St) (relation : RelationDefn) (objectId : Value)
    (newIds : List Value) : Table :=
  (st.db.table relation.tableName).map (fun row =>
    if getField row relation.key == objectId
        && !(newIds.contains (getField row "id")) then
      setField row relation.key Value.vNull
    else row)

/-- The state holding the detached related table. -/
def hasManyDetachSt (st : St) (relation : RelationDefn) (objectId : Value)
    (newIds : List Value) : St :=
  { st with db := (st.db.setTable relation.tableName
      (hasManyDetach st relation objectId newIds)) }

/-- The identities of related objects already persisted (`util.ts`
L675-679: the select on `id in newRelatedObjectIds`). -/
def hasManyExisting (st1 : St) (relation : RelationDefn) (newIds : List Value) :
    List Value :=
  ((st1.db.table relation.tableName).filter
    (fun row => newIds.contains (getField row "id"))).map
    (fun row => getField row "id")

/-- `Model.saveHasManyRelation` (`util.ts` L657-696): unset the foreign key
on rows that point at this parent but are no longer attached, find which
related objects are already persisted, then save every related object with
its foreign key set to the parent's identity (mutating the related objects
in place) and the per-element existence flag. -/
def saveHasManyRelation (saveFn : SaveFn) (st : St) (tableName : String) (objRef : Nat)
    (relation : RelationDefn) (value : Value) (opts : QOpts) :
    Except JsErr (St × SavedRelation) :=
  match value with
  | .vArr relatedObjects =>
    let objectId := getField (st.heap.get objRef) "id"
    let newRelatedObjectIds := hasManyNewIds st relatedObjects
    -- unset any objects that have this model as their relation id (L669-673)
    let st1 := hasManyDetachSt st relation objectId newRelatedObjectIds
    -- find any related objects that are already persisted (L675-679)
    let existingRelatedObjectIds := hasManyExisting st1 relation newRelatedObjectIds
    -- save/update each related object (L681-690); Promise.all is modelled
    -- left to right
    match relatedObjects.foldl
        (hasManyStep saveFn relation objectId existingRelatedObjectIds opts)
        (.ok (st1, [])) with
    | .error e => .error e
    | .ok (st2, saved) =>
      .ok (st2, { name := relation.name, value := Value.vArr saved })
  | _ => .error (.typeError "relatedObjects.map is not a function")

/-- `Model.saveBelongsToRelation` (`util.ts` L698-728): save the related
object when one is attached (or take `null`), then update this model's own
row to point at it, and hand the foreign-key column back to the pipeline
so the in-memory parent adopts it. The source's `foriegnValue` spelling is
kept. -/
def saveBelongsToRelation (saveFn : SaveFn) (st : St) (tableName : String) (objRef : Nat)
    (relation : RelationDefn) (value : Value) (opts : QOpts) :
    Except JsErr (St × SavedRelation) :=
  let objectId := getField (st.heap.get objRef) "id"
  let res : Except JsErr (St × Value) :=
    if value.truthy then
      match value with
      | .vRef o =>
        match saveFn st relation.tableName o opts with
        | .error e => .error e
        | .ok (st, savedRef) => .ok (st, Value.vRef savedRef)
      | _ => .error (.typeError "cannot save a non-object relation value")
    else .ok (st, Value.vNull)
  match res with
  | .error e => .error e
  | .ok (st1, foriegnValue) =>
    let foreignId :=
      match foriegnValue with
      | .vRef so => getField (st1.heap.get so) "id"
      | _ => Value.vNull
    -- update this model to point to the related object (L716-719)
    let t2 := (st1.db.table tableName).map (fun row =>
      if getField row "id" == objectId then setField row relation.key foreignId else row)
    .ok ({ st1 with db := st1.db.setTable tableName t2 },
      { name := relation.name, value := foriegnValue,
        belongsToKey := some relation.key, belongsToValue := foreignId })

/-- One iteration of the `saveHasAndBelongsToManyRelation` save loop
(`util.ts` L766-789): save the related object with the per-element
existence flag, then insert a join row (with a fresh id and the shared
timestamp) only when the saved identity was not already joined. -/
def habtmStep (saveFn : SaveFn) (relation : RelationDefn) (objectId : Value)
    (existingRelatedObjectIds existingRelatedIds : List Value) (opts : QOpts)
    (acc : Except JsErr (St × List Nat)) (o : Nat) : Except JsErr (St × List Nat) :=
  match acc with
  | .error e => .error e
  | .ok (st, saved) =>
    let ex := existingRelatedIds.contains (getField (st.heap.get o) "id")
    match saveFn st relation.tableName o { opts with exists? := some ex } with
    | .error e => .error e
    | .ok (st, savedRef) =>
      let savedId := getField (st.heap.get savedRef) "id"
      if !(existingRelatedObjectIds.contains savedId) then
        let throughName := relation.throughTable.getD ""
        let srcKey := relation.sourceKey.getD ""
        let u := (stUuid st).2
        let newJoinRow : Record :=
          [("id", Value.vStr u), (relation.key, savedId), (srcKey, objectId),
           ("createdAt", optDate opts.updatedAt), ("updatedAt", optDate opts.updatedAt)]
        .ok ({ (stUuid st).1 with db := ((stUuid st).1.db.setTable throughName
                (((stUuid st).1.db.table throughName) ++ [newJoinRow])) },
             saved ++ [savedRef])
      else
        .ok (st, saved ++ [savedRef])

/-- The join identities already attached to this parent (`util.ts`
L741-747: the select on the through table keyed by the source key). -/
def habtmExistingJoined (st : St) (relation : RelationDefn) (objectId : Value) :
    List Value :=
  ((st.db.table (relation.throughTable.getD "")).filter
    (fun row => getField row (relation.sourceKey.getD "") == objectId)).map
    (fun row => getField row relation.key)

/-- The through table after the delete stage (`util.ts` L749-754): join
rows of this parent whose related identity is no longer attached are
removed. -/
def habtmJoinKeep (st : St) (relation : RelationDefn) (objectId : Value)
    (newIds : List Value) : Table :=
  (st.db.table (relation.throughTable.getD "")).filter (fun row =>
    !(getField row (relation.sourceKey.getD "") == objectId
      && !(newIds.contains (getField row relation.key))))

/-- The state holding the pruned through table. -/
def habtmSt1 (st : St) (relation : RelationDefn) (objectId : Value)
    (newIds : List Value) : St :=
  { st with db := (st.db.setTable (relation.throughTable.getD "")
      (habtmJoinKeep st relation objectId newIds)) }

/-- The identities of related rows already persisted (`util.ts` L756-762). -/
def habtmExistingIds (st1 : St) (relation : RelationDefn) (newIds : List Value) :
    List Value :=
  ((st1.db.table relation.tableName).filter
    (fun row => newIds.contains (getField row "id"))).map
    (fun row => getField row "id")

/-- `Model.saveHasAndBelongsToManyRelation` (`util.ts` L730-795): read the
join rows that already exist, delete join rows whose related identity is
no longer attached, work out which related rows already exist, then save
each related object and insert a join row (with a fresh id and the shared
timestamp) only when its identity was not already joined. -/
def saveHasAndBelongsToManyRelation (saveFn : SaveFn) (st : St) (tableName : String)
    (objRef : Nat) (relation : RelationDefn) (value : Value) (opts : QOpts) :
    Except JsErr (St × SavedRelation) :=
  match value with
  | .vArr relatedObjects =>
    let objectId := getField (st.heap.get objRef) "id"
    -- newRelatedObjectIds (L737-739) is computed exactly as in the
    -- hasMany strategy
    let newRelatedObjectIds := hasManyNewIds st relatedObjects
    -- find any join rows that already exist so we do not create them again (L741-747)
    let existingRelatedObjectIds := habtmExistingJoined st relation objectId
    -- delete any join rows that have been removed (L749-754)
    let st1 := habtmSt1 st relation objectId newRelatedObjectIds
    -- work out which related rows already exist (L756-762)
    let existingRelatedIds := habtmExistingIds st1 relation newRelatedObjectIds
    -- for each related thing create it if needed, and a join row if needed (L764-789)
    match relatedObjects.foldl
        (habtmStep saveFn relation objectId existingRelatedObjectIds existingRelatedIds opts)
        (.ok (st1, [])) with
    | .error e => .error e
    | .ok (st2, saved) =>
      .ok (st2, { name := relation.name, value := Value.vArr saved })
  | _ => .error (.typeError "relatedObjects.map is not a function")

/-- `Model.saveHasOneRelation` (`util.ts` L797-833): give the related
object an identity if it lacks one (mutating it in place), unset the
foreign key of any other row pointing at the parent, then save the related
object with its foreign key set to the parent. -/
def saveHasOneRelation (saveFn : SaveFn) (st : St) (tableName : String) (objRef : Nat)
    (relation : RelationDefn) (value : Value) (opts : QOpts) :
    Except JsErr (St × SavedRelation) :=
  match value with
  | .vRef o =>
    let objectId := getField (st.heap.get objRef) "id"
    -- ensure our related object has an id even if it is not persisted yet (L806)
    let (st1, relRec1) :=
      let r := st.heap.get o
      if (getField r "id").truthy then (st, r)
      else
        let (stU, u) := stUuid st
        let r2 := setField r "id" (Value.vStr u)
        ({ stU with heap := stU.heap.set o r2 }, r2)
    let relId := getField relRec1 "id"
    -- unset any other related object that points to this object (L808-812)
    let t2 := (st1.db.table relation.tableName).map (fun row =>
      if getField row relation.key == objectId && !(getField row "id" == relId) then
        setField row relation.key Value.vNull
      else row)
    let st2 := { st1 with db := st1.db.setTable relation.tableName t2 }
    let existingRelatedIds :=
      ((st2.db.table relation.tableName).filter (fun row => getField row "id" == relId)).map
        (fun row => getField row "id")
    -- relatedObject is non-null here: set its foreign key and save it (L819-827)
    let relRec2 := setField relRec1 relation.key objectId
    let st3 := { st2 with heap := st2.heap.set o relRec2 }
    match saveFn st3 relation.tableName o
        { opts with exists? := some (existingRelatedIds.contains relId) } with
    | .error e => .error e
    | .ok (st4, savedRef) =>
      .ok (st4, { name := relation.name, value := Value.vRef savedRef })
  | _ => .error (.typeError "cannot assign an id to a non-object relation value")

/-- One relation of the `Model.saveRelations` loop (`util.ts` L616-642):
look the key up among the registered relations and dispatch on the
relation type. -/
def saveRelationsStep (saveFn : SaveFn) (spec : ModelSpec) (tableName : String)
    (objRef : Nat) (opts : QOpts) (acc : Except JsErr (St × List SavedRelation))
    (key : String) : Except JsErr (St × List SavedRelation) :=
  match acc with
  | .error e => .error e
  | .ok (st, srs) =>
    match spec.availableRelations.find? (fun p => p.1 == key) with
    | none => .error (.relationError "There is no relation for that key")
    | some p =>
      let relation := p.2
      let value := getField (st.heap.get objRef) key
      let res :=
        match relation.type with
        | .hasMany => saveHasManyRelation saveFn st tableName objRef relation value opts
        | .belongsTo => saveBelongsToRelation saveFn st tableName objRef relation value opts
        | .hasAndBelongsToMany =>
          saveHasAndBelongsToManyRelation saveFn st tableName objRef relation value opts
        | .hasOne => saveHasOneRelation saveFn st tableName objRef relation value opts
      match res with
      | .error e => .error e
      | .ok (st, sr) => .ok (st, srs ++ [sr])

/-- `Model.saveRelations` (`util.ts` L612-655): run the matching strategy
for every relation field present on the object (the source fires them
concurrently; this model runs them left to right, which linearizes the
same per-relation writes), then graft each result back onto the object,
including any foreign-key column a `belongsTo` strategy hands back. -/
def saveRelations (saveFn : SaveFn) (st : St) (tableName : String) (objRef : Nat)
    (opts : QOpts) : Except JsErr (St × Nat) :=
  let spec := st.db.model tableName
  if spec.availableRelations.isEmpty then .ok (st, objRef)
  else
    let availKeys := spec.availableRelations.map (fun p => p.1)
    let relationProperties :=
      (recordKeys (st.heap.get objRef)).filter (fun k => availKeys.contains k)
    match relationProperties.foldl
        (saveRelationsStep saveFn spec tableName objRef opts) (.ok (st, [])) with
    | .error e => .error e
    | .ok (st2, savedRelations) =>
      -- graft the saved relations back onto the object (L644-652; the
      -- source's `if (!savedRelations) return` guard is dead code: the
      -- array is always truthy)
      let rec2 := savedRelations.foldl (fun r sr =>
        let r1 := setField r sr.name sr.value
        match sr.belongsToKey with
        | some k => setField r1 k sr.belongsToValue
        | none => r1) (st2.heap.get objRef)
      .ok ({ st2 with heap := st2.heap.set objRef rec2 }, objRef)

/-- Everything `Model.save` has computed by the time it reaches the before
hooks (`util.ts` L250-292): the state after allocating and mutating the
working shallow copy, the copy's heap identity, the detached relation
fields, the row about to be written, the options with the fresh
`updatedAt`, and the existence probe's result. -/
structure SavePrep where
  st : St
  scRef : Nat
  relations : Record
  screc : Record
  opts : QOpts
  now : Nat
  exists? : Bool

/-- The identity-assignment step of `Model.save` (`util.ts` L266-269):
generate a uuid for the working copy when it has none. -/
def ensureId (st1 : St) (screc1 : Record) : St × Record :=
  if getField screc1 "id" == Value.vUndefined then
    ((stUuid st1).1, setField screc1 "id" (Value.vStr (stUuid st1).2))
  else (st1, screc1)

/-- The front half of `Model.save` (`util.ts` L250-292): shallow-copy the
object, detach its relation fields, assign an identity if absent,
normalize values, fix a fresh `updatedAt` (the spread at L283 always
installs a new `Date`, clobbering any inherited one), and probe
existence. -/
def savePrepare (st : St) (tableName : String) (objRef : Nat) (opts : QOpts) : SavePrep :=
  let spec := st.db.model tableName
  -- shallow copy the object so we can remove some keys from it (L251)
  let obj0 := st.heap.get objRef
  let heap1 := (st.heap.alloc obj0).1
  let scRef := (st.heap.alloc obj0).2
  let st1 : St := { st with heap := heap1 }
  -- detach relations because they cannot be saved against this record (L253-264)
  let availKeys := spec.availableRelations.map (fun p => p.1)
  let includedRelations := (recordKeys obj0).filter (fun k => availKeys.contains k)
  let relations : Record := includedRelations.map (fun k => (k, getField obj0 k))
  let screc1 := includedRelations.foldl (fun r k => removeField r k) obj0
  -- make sure ID is set (L266-269)
  let st2 := (ensureId st1 screc1).1
  let screc2 := (ensureId st1 screc1).2
  -- convert json properties to text and coerce the string "null" (L271-280)
  let screc3 := savingStringify screc2
  -- cache now so all our saves are at the same time (L282-284); note the
  -- spread order makes the fresh date override any inherited updatedAt
  let st3 := (stNewDate st2).1
  let now := (stNewDate st2).2
  let opts1 : QOpts := { opts with updatedAt := some now }
  let screc4 := setField screc3 "updatedAt" (Value.vDate now)
  let st4 : St := { st3 with heap := st3.heap.set scRef screc4 }
  -- check to see if the record has already been persisted (L286-292)
  { st := st4, scRef := scRef, relations := relations, screc := screc4,
    opts := opts1, now := now,
    exists? := recordExists st4.db tableName (getField screc4 "id") opts1 }

/-- The row write of `Model.save` (`util.ts` L307-317): update-by-identity
when existing, otherwise insert with `createdAt` set to the same timestamp
as `updatedAt`; returns the new state and `{ ...results[0] }`. -/
def saveWrite (tableName : String) (prep : SavePrep) : St × Record :=
  let idv := getField prep.screc "id"
  if prep.exists? then
    let t := prep.st.db.table tableName
    let matched := t.filter (fun row => getField row "id" == idv)
    let t2 := t.map (fun row =>
      if getField row "id" == idv then mergeRecord row prep.screc else row)
    ({ prep.st with db := prep.st.db.setTable tableName t2 },
     (matched.map (fun row => mergeRecord row prep.screc)).headD [])
  else
    let screc5 := setField prep.screc "createdAt" (Value.vDate prep.now)
    ({ prep.st with db := (prep.st.db.setTable tableName
        ((prep.st.db.table tableName) ++ [screc5])) },
     screc5)

/-- The after hooks of `Model.save` (`util.ts` L325-331): `afterSave`,
then `afterCreate` when the save was a create. These are awaited, so an
error thrown there does propagate to the caller. -/
def saveAfterHooks (spec : ModelSpec) (opts : QOpts) (exists? : Bool) (res : St × Nat) :
    Except JsErr (St × Nat) :=
  if !opts.skipHooks && hookThrows spec "afterSave" then .error .hookError
  else if !opts.skipHooks && !exists? && hookThrows spec "afterCreate" then .error .hookError
  else .ok res

/-- `Model.save` for a single record (`util.ts` L245-334), by fuel-indexed
recursion (the source recursion through relation strategies is unbounded).
The pipeline is `savePrepare` (L250-292), the cancellable before hooks
(L294-305, returning the caller's original object when a hook throws),
`saveWrite` (L307-317), reattaching the detached relations onto a fresh
copy of the written row (L319-322), recursively saving relations (L323),
then the awaited after hooks (L325-331). -/
def save : Nat → SaveFn
  | 0 => fun _ _ _ _ => .error .outOfFuel
  | fuel + 1 => fun st tableName objRef opts =>
    let spec := st.db.model tableName
    let prep := savePrepare st tableName objRef opts
    -- before hooks can cancel a save: give back the original object (L294-305)
    if !prep.opts.skipHooks
        && ((!prep.exists? && hookThrows spec "beforeCreate")
            || hookThrows spec "beforeSave") then
      .ok (prep.st, objRef)
    else
      -- do the actual saving (L307-316), then savingObject = { ...results[0] } (L317)
      let st5 := (saveWrite tableName prep).1
      let res0 := (saveWrite tableName prep).2
      let heap2 := (st5.heap.alloc res0).1
      let scRef2 := (st5.heap.alloc res0).2
      -- reattach the relations that we removed before (L319-322)
      let screcB := prep.relations.foldl (fun r p => setField r p.1 p.2) res0
      let st6 : St := { st5 with heap := heap2.set scRef2 screcB }
      match saveRelations (save fuel) st6 tableName scRef2 prep.opts with
      | .error e => .error e
      | .ok res => saveAfterHooks spec prep.opts prep.exists? res

/-- Allocate a shallow copy of every row as a heap object
(`(...).map((r: any) => ({ ...r }))` in the source). -/
def allocRows (h : Heap) (rows : List Record) : Heap × List Nat :=
  rows.foldl (fun acc r =>
    let (h2, o) := acc.1.alloc r
    (h2, acc.2 ++ [o])) (h, [])

/-- One fetched relation of the eager loader (the record built at
`util.ts` L857-907): the requested name, the canonical relation, the join
rows (many-to-many only, projected to the two key columns) and references
to the fetched related row objects, which are shared between results. -/
structure IncludedRelation where
  name : String
  properties : RelationDefn
  joins : List Record := []
  rows : List Nat := []

/-- `Model.includeRelations` (`util.ts` L835-941). For each requested
relation name the source dereferences `relation.tableName` at L846 before
its own `typeof relation === "undefined"` guard at L849, so an
unregistered name raises a JavaScript `TypeError` and the intended
`RelationError` is dead code; this model reproduces that. Each registered
relation is fetched with one batched query (two for many-to-many: the join
rows, then the related rows), the fetched rows are copied into fresh
objects, and references are grafted onto the matching result objects. -/
def includeRelations (st : St) (tableName : String) (results : List Nat)
    (includedRelations : List String) : Except JsErr (St × List Nat) :=
  if results.length == 0 then .ok (st, results)
  else
    let spec := st.db.model tableName
    let availableRelations := spec.availableRelations
    if includedRelations.isEmpty then .ok (st, results)
    else
      let ids := results.map (fun o => getField (st.heap.get o) "id")
      let fetch := fun (acc : Except JsErr (St × List IncludedRelation))
          (relationName : String) =>
        match acc with
        | .error e => .error e
        | .ok (st, rels) =>
          match availableRelations.find? (fun p => p.1 == relationName) with
          | none =>
            -- L846 reads `relation.tableName` while `relation` is undefined;
            -- the RelationError guard at L849 is never reached
            .error (.typeError "Cannot read properties of undefined (reading tableName)")
          | some p =>
            let relation := p.2
            match relation.type with
            | .hasMany =>
              let relatedRows := (st.db.table relation.tableName).filter
                (fun r => ids.contains (getField r relation.key))
              let (h2, rowRefs) := allocRows st.heap relatedRows
              .ok ({ st with heap := h2 },
                   rels ++ [{ name := relationName, properties := relation,
                              rows := rowRefs }])
            | .hasAndBelongsToMany =>
              -- the join rows are selected with only (sourceKey, key) columns
              let joins := ((st.db.table (relation.throughTable.getD "")).filter
                (fun r => ids.contains (getField r (relation.sourceKey.getD "")))).map
                (fun r => ([((relation.sourceKey.getD ""), getField r (relation.sourceKey.getD "")),
                            (relation.key, getField r relation.key)] : Record))
              let throughIds := joins.map (fun r => getField r relation.key)
              let relatedRows := (st.db.table relation.tableName).filter
                (fun r => throughIds.contains (getField r "id"))
              let (h2, rowRefs) := allocRows st.heap relatedRows
              .ok ({ st with heap := h2 },
                   rels ++ [{ name := relationName, properties := relation,
                              joins := joins, rows := rowRefs }])
            | .hasOne =>
              let relatedRows := (st.db.table relation.tableName).filter
                (fun r => ids.contains (getField r relation.key))
              let (h2, rowRefs) := allocRows st.heap relatedRows
              .ok ({ st with heap := h2 },
                   rels ++ [{ name := relationName, properties := relation,
                              rows := rowRefs }])
            | .belongsTo =>
              let relationIds := results.map
                (fun o => getField (st.heap.get o) relation.key)
              let relatedRows := (st.db.table relation.tableName).filter
                (fun r => relationIds.contains (getField r "id"))
              let (h2, rowRefs) := allocRows st.heap relatedRows
              .ok ({ st with heap := h2 },
                   rels ++ [{ name := relationName, properties := relation,
                              rows := rowRefs }])
      match includedRelations.foldl fetch (.ok (st, [])) with
      | .error e => .error e
      | .ok (st1, relations) =>
        -- graft the relations onto the matching results (L913-940); the
        -- source mutates each result object in place
        let heap2 := results.foldl (fun h o =>
          let rec2 := relations.foldl (fun result relation =>
            match relation.properties.type with
            | .belongsTo =>
              setField result relation.name
                (match relation.rows.find? (fun r =>
                    getField (h.get r) "id" == getField result relation.properties.key) with
                 | some r => Value.vRef r
                 | none => Value.vUndefined)
            | .hasMany =>
              setField result relation.name
                (Value.vArr (relation.rows.filter (fun r =>
                  getField (h.get r) relation.properties.key == getField result "id")))
            | .hasOne =>
              setField result relation.name
                (match relation.rows.find? (fun r =>
                    getField (h.get r) relation.properties.key == getField result "id") with
                 | some r => Value.vRef r
                 | none => Value.vUndefined)
            | .hasAndBelongsToMany =>
              let joinIds := (relation.joins.filter (fun j =>
                getField j (relation.properties.sourceKey.getD "")
                  == getField result "id")).map
                (fun j => getField j relation.properties.key)
              setField result relation.name
                (Value.vArr (relation.rows.filter (fun r =>
                  joinIds.contains (getField (h.get r) "id"))))) (h.get o)
          h.set o rec2) st1.heap
        .ok ({ st1 with heap := heap2 }, results)

/-- A named context as registered in `ModelOptions.contexts` or as passed
directly to `withContext`: a context name, an ordered field list, or a
transform function (`Context<T>` in `types.ts`). -/
inductive Ctx where
  | name (s : String)
  | fields (l : List String)
  | fn (f : Record → Record)

/-- One step of the field-list projection loop of `Model.withContext`
(`util.ts` L565-576): skip the field when its value is falsy, project it
through the related model when it names a relation, copy it verbatim
otherwise. -/
def contextFoldStep (relatedProject : String → Option String → Value → Value)
    (availableRelations : List (String × RelationDefn)) (contextName : Option String)
    (results : Record) (newObject : Record) (key : String) : Record :=
  if !(getField results key).truthy then newObject
  else if (availableRelations.map (fun p => p.1)).contains key then
    match availableRelations.find? (fun p => p.1 == key) with
    | some p =>
      setField newObject key
        (relatedProject p.2.tableName contextName (getField results key))
    | none => newObject
  else
    setField newObject key (getField results key)

/-- `Model.withContext` for a single record (`util.ts` L531-581). The
cross-model recursion `RelatedModel.withContext(results[key], ...)` is
supplied as the `relatedProject` parameter (related table name, the
context name resolved so far, the relation's value). Resolution follows
the source stages: the `"default"` marker is a passthrough when no default
context is registered; a named context must exist or `ContextError` is
thrown; a context that resolves to yet another string falls through to the
final passthrough; function contexts receive a shallow copy; field-list
contexts keep only listed fields whose values are truthy, recursing into
relation-valued fields. -/
def withContext (relatedProject : String → Option String → Value → Value)
    (contexts? : Option (List (String × Ctx)))
    (availableRelations : List (String × RelationDefn))
    (results : Record) (context : Ctx) : Except JsErr Record :=
  -- use the default if that exists (L540-546)
  let stageA : Except Record (Option String × Ctx) :=
    match context with
    | .name s =>
      if s == "default" then
        match contexts? with
        | none => .error results
        | some cs =>
          match cs.find? (fun p => p.1 == "default") with
          | none => .error results
          | some p => .ok (some "default", p.2)
      else .ok (none, context)
    | _ => .ok (none, context)
  match stageA with
  | .error r => .ok r
  | .ok (cn1, c1) =>
    -- look up a context given by name (L548-556)
    let stageB : Except JsErr (Option String × Ctx) :=
      match c1 with
      | .name s =>
        match contexts? with
        | none => .error (.contextError "There are no contexts defined.")
        | some cs =>
          match cs.find? (fun p => p.1 == s) with
          | none => .error (.contextError "There is no context with that name")
          | some p => .ok (some s, p.2)
      | _ => .ok (cn1, c1)
    match stageB with
    | .error e => .error e
    | .ok (contextName, c2) =>
      match c2 with
      -- function contexts get a shallow copy of the record (L559-561)
      | .fn f => .ok (f results)
      | .fields l =>
        -- field-list contexts (L563-578)
        if l.length > 0 && !(l.headD "" == "*") then
          .ok (l.foldl
            (contextFoldStep relatedProject availableRelations contextName results) [])
        else .ok results
      -- a context that resolved to another string reaches the final
      -- passthrough return (L580)
      | .name _ => .ok results

/-- A record identity the value-normalization loop of `save` keeps intact:
when truthy it is not object-typed (so `JSON.stringify` leaves it alone)
and is not the literal string `"null"`. Every string, number or boolean
identity — in particular every uuid — satisfies this. -/
def IdStable (v : Value) : Prop :=
  v.truthy = true → (v.isObjectType = false ∧ v ≠ .vStr "null")

/-! Concrete example instances used to exhibit behaviour of the engine on
explicit inputs (witnesses and counterexamples). -/

/-- A small concrete inflector covering the words the examples use. -/
def exInflect : Inflector :=
  { singularize := fun s =>
      if s == "users" then "user" else if s == "projects" then "project"
      else if s == "tasks" then "task" else s,
    pluralize := fun s =>
      if s == "user" then "users" else if s == "project" then "projects"
      else if s == "task" then "tasks" else s }

/-- A canonical `hasMany projects` relation owned by the `users` table. -/
def exHasManyRel : RelationDefn :=
  { name := "projects", type := .hasMany, many := true, tableName := "projects",
    key := "userId", dependent := false }

/-- A canonical `hasAndBelongsToMany projects` relation owned by `users`. -/
def exHabtmRel : RelationDefn :=
  { name := "projects", type := .hasAndBelongsToMany, many := true,
    tableName := "projects", key := "projectId", sourceKey := some "userId",
    throughTable := some "projects_users", dependent := false }

/-- A `dependent: true` canonical `hasMany tasks` relation owned by `users`. -/
def exDepTasksRel : RelationDefn :=
  { name := "tasks", type := .hasMany, many := true, tableName := "tasks",
    key := "userId", dependent := true }

/-- State for saving a user (heap object 0, id `u1`) that carries one
attached `hasMany` project (heap object 1, id `p1`, no foreign key yet)
over empty tables. -/
def stHasManyEx : St :=
  { heap := { objs := [(0, [("id", Value.vStr "u1"), ("name", Value.vStr "Nathan"),
                            ("projects", Value.vArr [1])]),
                       (1, [("id", Value.vStr "p1"), ("name", Value.vStr "Fun")])],
              next := 2 },
    db := { tables := [("users", []), ("projects", [])],
            models := [("users", { tableName := "users",
                                   availableRelations := [("projects", exHasManyRel)] }),
                       ("projects", { tableName := "projects" })] },
    nextUuid := 0, clock := 0 }

/-- State for re-saving a user already joined (join row `j1`) to its one
attached `hasAndBelongsToMany` project — the second, idempotent save. -/
def stHabtmEx : St :=
  { heap := { objs := [(0, [("id", Value.vStr "u1"), ("projects", Value.vArr [1])]),
                       (1, [("id", Value.vStr "p1")])],
              next := 2 },
    db := { tables := [("users", [[("id", Value.vStr "u1")]]),
                       ("projects", [[("id", Value.vStr "p1")]]),
                       ("projects_users",
                        [[("id", Value.vStr "j1"), ("projectId", Value.vStr "p1"),
                          ("userId", Value.vStr "u1")]])],
            models := [("users", { tableName := "users",
                                   availableRelations := [("projects", exHabtmRel)] }),
                       ("projects", { tableName := "projects" })] },
    nextUuid := 0, clock := 0 }

/-- State for saving a user whose `hasMany` projects set is `[p1]` while
the projects table still holds a row `p9` pointing at the user: `p9` must
be detached, not deleted. -/
def stDetachEx : St :=
  { heap := { objs := [(0, [("id", Value.vStr "u1"), ("projects", Value.vArr [1])]),
                       (1, [("id", Value.vStr "p1")])],
              next := 2 },
    db := { tables := [("users", [[("id", Value.vStr "u1")]]),
                       ("projects", [[("id", Value.vStr "p1"), ("userId", Value.vStr "u1")],
                                     [("id", Value.vStr "p9"), ("userId", Value.vStr "u1")]])],
            models := [("users", { tableName := "users",
                                   availableRelations := [("projects", exHasManyRel)] }),
                       ("projects", { tableName := "projects" })] },
    nextUuid := 0, clock := 0 }

/-- State for destroying user `u1`, which owns a `dependent: true` hasMany
`tasks` relation and a `hasAndBelongsToMany` `projects` relation; rows of
unrelated user `u2` sit alongside. -/
def stDestroyEx : St :=
  { heap := { objs := [(0, [("id", Value.vStr "u1")])], next := 1 },
    db := { tables := [("users", [[("id", Value.vStr "u1")], [("id", Value.vStr "u2")]]),
                       ("tasks", [[("id", Value.vStr "t1"), ("userId", Value.vStr "u1")],
                                  [("id", Value.vStr "t2"), ("userId", Value.vStr "u2")]]),
                       ("projects_users",
                        [[("id", Value.vStr "j1"), ("projectId", Value.vStr "p1"),
                          ("userId", Value.vStr "u1")],
                         [("id", Value.vStr "j2"), ("projectId", Value.vStr "p1"),
                          ("userId", Value.vStr "u2")]])],
            models := [("users", { tableName := "users",
                                   availableRelations := [("tasks", exDepTasksRel),
                                                          ("projects", exHabtmRel)] })] },
    nextUuid := 0, clock := 0 }

/-- State whose `users` model registers a throwing `beforeSave` hook and a
throwing `beforeDestroy` hook. -/
def stHookEx : St :=
  { heap := { objs := [(0, [("id", Value.vStr "u1"), ("name", Value.vStr "N")])], next := 1 },
    db := { tables := [("users", [[("id", Value.vStr "u1")]])],
            models := [("users", { tableName := "users",
                                   hooks := [("beforeSave", true),
                                             ("beforeDestroy", true)] })] },
    nextUuid := 0, clock := 0 }

/-- State with a one-row `users` result set whose model registers only the
`projects` relation, for eager loading an unknown relation name. -/
def stIncludeEx : St :=
  { heap := { objs := [(0, [("id", Value.vStr "u1")])], next := 1 },
    db := { tables := [("users", [[("id", Value.vStr "u1")]])],
            models := [("users", { tableName := "users",
                                   availableRelations := [("projects", exHasManyRel)] })] },
    nextUuid := 0, clock := 0 }

/-! Basic lemmas about association lists, records, the heap and the
database. -/

section AssocLemmas

variable {κ ν : Type} [BEq κ] [LawfulBEq κ]

theorem assocFind_assocSet_self (l : List (κ × ν)) (k : κ) (v : ν) :
    assocFind (assocSet l k v) k = some v := by
  induction l with
  | nil => simp [assocSet, assocFind]
  | cons p rest ih =>
    by_cases hp : p.1 = k
    · simp [assocSet, hp, assocFind]
    · unfold assocSet
      rw [if_neg (by simpa using hp)]
      unfold assocFind at ih ⊢
      rw [List.find?_cons_of_neg _ (by simpa using hp)]
      exact ih

theorem assocFind_assocSet_ne (l : List (κ × ν)) (k k2 : κ) (v : ν) (h : k2 ≠ k) :
    assocFind (assocSet l k v) k2 = assocFind l k2 := by
  induction l with
  | nil => simp [assocSet, assocFind, List.find?_cons_of_neg,
      (by simpa using fun hh => h hh.symm : ¬(k == k2) = true)]
  | cons p rest ih =>
    by_cases hp : p.1 = k
    · unfold assocSet
      rw [if_pos (by simpa using hp)]
      unfold assocFind
      rw [List.find?_cons_of_neg _ (by simpa using fun hh => h hh.symm),
        List.find?_cons_of_neg _ (by simpa [hp] using fun hh => h hh.symm)]
    · unfold assocSet
      rw [if_neg (by simpa using hp)]
      by_cases hpk : p.1 = k2
      · unfold assocFind
        rw [List.find?_cons_of_pos _ (by simpa using hpk),
          List.find?_cons_of_pos _ (by simpa using hpk)]
      · unfold assocFind at ih ⊢
        rw [List.find?_cons_of_neg _ (by simpa using hpk),
          List.find?_cons_of_neg _ (by simpa using hpk)]
        exact ih

theorem assocFind_cons_self (p : κ × ν) (l : List (κ × ν)) :
    assocFind (p :: l) p.1 = some p.2 := by
  unfold assocFind
  rw [List.find?_cons_of_pos _ (by simp)]

theorem assocFind_cons_ne (p : κ × ν) (l : List (κ × ν)) (k : κ) (h : k ≠ p.1) :
    assocFind (p :: l) k = assocFind l k := by
  unfold assocFind
  rw [List.find?_cons_of_neg _ (by simpa using fun hh => h hh.symm)]

end AssocLemmas

theorem getField_setField_self (r : Record) (k : String) (v : Value) :
    getField (setField r k v) k = v := by
  unfold getField setField
  rw [assocFind_assocSet_self]

theorem getField_setField_ne (r : Record) (k k2 : String) (v : Value) (h : k2 ≠ k) :
    getField (setField r k v) k2 = getField r k2 := by
  unfold getField setField
  rw [assocFind_assocSet_ne _ _ _ _ h]

theorem getField_removeField_ne (r : Record) (k k2 : String) (h : k2 ≠ k) :
    getField (removeField r k) k2 = getField r k2 := by
  induction r with
  | nil => rfl
  | cons p rest ih =>
    unfold removeField
    by_cases hp : p.1 = k
    · rw [if_pos (by simpa using hp), ih]
      unfold getField
      rw [assocFind_cons_ne _ _ _ (by rw [hp]; exact h)]
    · rw [if_neg (by simpa using hp)]
      by_cases hpk : p.1 = k2
      · unfold getField
        rw [← hpk, assocFind_cons_self, assocFind_cons_self]
      · unfold getField at ih ⊢
        rw [assocFind_cons_ne _ _ _ (fun hh => hpk hh.symm),
          assocFind_cons_ne _ _ _ (fun hh => hpk hh.symm)]
        exact ih

theorem getField_foldl_removeField (r : Record) (ks : List String) (k : String)
    (h : k ∉ ks) : getField (ks.foldl (fun r k => removeField r k) r) k = getField r k := by
  induction ks generalizing r with
  | nil => rfl
  | cons a rest ih =>
    simp only [List.foldl]
    rw [ih _ (fun hm => h (List.mem_cons_of_mem a hm)),
      getField_removeField_ne _ _ _ (fun he => h (by rw [he]; exact List.mem_cons_self a rest))]

theorem hasField_of_getField_ne (r : Record) (k : String)
    (h : getField r k ≠ .vUndefined) : hasField r k = true := by
  unfold getField at h
  unfold hasField
  cases hf : assocFind r k with
  | none => rw [hf] at h; simp at h
  | some v => simp

theorem getField_savingStringify (r : Record) (k : String) (h : hasField r k = true) :
    getField (savingStringify r) k = coerceValue (getField r k) := by
  induction r with
  | nil => simp [hasField, assocFind] at h
  | cons p rest ih =>
    by_cases hp : p.1 = k
    · unfold savingStringify getField
      simp only [List.map]
      rw [← hp, assocFind_cons_self ((fun q => (q.1, coerceValue q.2)) p),
        assocFind_cons_self p]
    · unfold savingStringify at ih ⊢
      unfold getField at ih ⊢
      unfold hasField at h ih
      simp only [List.map]
      rw [assocFind_cons_ne _ _ _ (fun hh => hp hh.symm)] at h
      rw [assocFind_cons_ne ((fun q => (q.1, coerceValue q.2)) p) _ _
          (fun hh => hp hh.symm),
        assocFind_cons_ne _ _ _ (fun hh => hp hh.symm)]
      exact ih h

theorem recordKeys_savingStringify (r : Record) :
    recordKeys (savingStringify r) = recordKeys r := by
  induction r with
  | nil => rfl
  | cons p rest ih => simp [savingStringify, recordKeys] at ih ⊢

theorem Heap.get_set_self (h : Heap) (o : Nat) (r : Record) : (h.set o r).get o = r := by
  unfold Heap.set Heap.get
  rw [assocFind_assocSet_self]

theorem Heap.get_set_ne (h : Heap) (o o2 : Nat) (r : Record) (hne : o2 ≠ o) :
    (h.set o r).get o2 = h.get o2 := by
  unfold Heap.set Heap.get
  rw [assocFind_assocSet_ne _ _ _ _ hne]

theorem Heap.next_set (h : Heap) (o : Nat) (r : Record) : (h.set o r).next = h.next := rfl

theorem Heap.get_alloc_ne (h : Heap) (r : Record) (o : Nat) (hne : o ≠ h.next) :
    ((h.alloc r).1).get o = h.get o := by
  unfold Heap.alloc Heap.get
  rw [assocFind_cons_ne _ _ _ hne]

theorem Heap.get_alloc_self (h : Heap) (r : Record) :
    ((h.alloc r).1).get (h.alloc r).2 = r := by
  unfold Heap.alloc Heap.get
  rw [assocFind_cons_self]

theorem Database.table_setTable_self (db : Database) (n : String) (t : Table) :
    (db.setTable n t).table n = t := by
  unfold Database.setTable Database.table
  rw [assocFind_assocSet_self]

theorem Database.table_setTable_ne (db : Database) (n n2 : String) (t : Table)
    (hne : n2 ≠ n) : (db.setTable n t).table n2 = db.table n2 := by
  unfold Database.setTable Database.table
  rw [assocFind_assocSet_ne _ _ _ _ hne]

theorem Database.models_setTable (db : Database) (n : String) (t : Table) :
    (db.setTable n t).models = db.models := rfl

theorem Database.model_setTable (db : Database) (n m : String) (t : Table) :
    (db.setTable n t).model m = db.model m := rfl

theorem orDefaultStr_of_truthy (o : Option String) (d : String) (h : strTruthy o = true) :
    orDefaultStr o d = o.getD "" := by
  cases o with
  | none => simp [strTruthy] at h
  | some s =>
    simp only [strTruthy] at h
    simp only [orDefaultStr, Option.getD]
    rw [if_neg (by simpa using h)]

/-! Claim C9: relation registration defaults and overrides. -/

/-- Claim C9 counterexample: the default foreign-key column is **not**
always the singularized owning-table name plus "Id". Registering the
relation `user` as `belongsTo: "users"` on the owning table `projects`
derives the key `userId` (singularized relation name), which differs from
the singularized owning-table derivation `projectId`. -/
theorem c9_counterexample :
    (∃ rd, normalizeRelation exInflect "projects" "user" { belongsTo := some "users" } = .ok rd
      ∧ rd.key = "userId")
    ∧ "userId" ≠ exInflect.singularize "projects" ++ "Id" := by
  refine ⟨⟨_, rfl, rfl⟩, ?_⟩
  decide

/-- Claim C9 (amended): registration is deterministic with per-kind
defaults — the foreign key defaults to the singularized owning-table name
plus "Id" for `hasMany`/`hasOne` (and for the `hasAndBelongsToMany` source
key), but to the singularized relation name plus "Id" for `belongsTo` and
for the `hasAndBelongsToMany` related key; the join table defaults to the
alphabetically sorted combination of the owning table name (as written)
and the pluralized relation name; supplying `foreignKey`, `primaryKey`,
`through` or `table` always takes precedence over the derived default. -/
theorem c9_registration_defaults (inflect : Inflector) (tn rn : String)
    (input : RelationInput) (rd : RelationDefn)
    (h : normalizeRelation inflect tn rn input = .ok rd) :
    (strTruthy input.foreignKey = true → rd.key = input.foreignKey.getD "") ∧
    (strTruthy input.table = true → rd.tableName = input.table.getD "") ∧
    (rd.type = .hasAndBelongsToMany → strTruthy input.primaryKey = true →
      rd.sourceKey = some (input.primaryKey.getD "")) ∧
    (rd.type = .hasAndBelongsToMany → strTruthy input.through = true →
      rd.throughTable = some (input.through.getD "")) ∧
    (input.foreignKey = none →
      rd.key = (if rd.type = .hasMany ∨ rd.type = .hasOne then inflect.singularize tn ++ "Id"
        else inflect.singularize rn ++ "Id")) ∧
    (rd.type = .hasAndBelongsToMany → input.primaryKey = none →
      rd.sourceKey = some (inflect.singularize tn ++ "Id")) ∧
    (rd.type = .hasAndBelongsToMany → input.through = none →
      rd.throughTable = some (sortedJoinPair tn (inflect.pluralize rn))) := by
  unfold normalizeRelation at h
  split_ifs at h with h1 h2 h3 h4
  -- hasAndBelongsToMany branch
  · cases h
    exact ⟨fun hk => orDefaultStr_of_truthy _ _ hk,
      fun ht => orDefaultStr_of_truthy _ _ ht,
      fun _ hp => by rw [orDefaultStr_of_truthy _ _ hp],
      fun _ hp => by rw [orDefaultStr_of_truthy _ _ hp],
      fun hk => by simp [hk, orDefaultStr],
      fun _ hp => by simp [hp, orDefaultStr],
      fun _ hp => by simp [hp, orDefaultStr]⟩
  -- belongsTo branch
  · cases h
    exact ⟨fun hk => orDefaultStr_of_truthy _ _ hk,
      fun ht => orDefaultStr_of_truthy _ _ ht,
      fun ht _ => by simp at ht,
      fun ht _ => by simp at ht,
      fun hk => by simp [hk, orDefaultStr],
      fun ht _ => by simp at ht,
      fun ht _ => by simp at ht⟩
  -- hasMany branch
  · cases h
    exact ⟨fun hk => orDefaultStr_of_truthy _ _ hk,
      fun ht => orDefaultStr_of_truthy _ _ ht,
      fun ht _ => by simp at ht,
      fun ht _ => by simp at ht,
      fun hk => by simp [hk, orDefaultStr],
      fun ht _ => by simp at ht,
      fun ht _ => by simp at ht⟩
  -- hasOne branch
  · cases h
    exact ⟨fun hk => orDefaultStr_of_truthy _ _ hk,
      fun ht => orDefaultStr_of_truthy _ _ ht,
      fun ht _ => by simp at ht,
      fun ht _ => by simp at ht,
      fun hk => by simp [hk, orDefaultStr],
      fun ht _ => by simp at ht,
      fun ht _ => by simp at ht⟩

/-- Witness for C9 (amended) at a concrete registration: an explicit
`foreignKey` override wins over the derived default. -/
theorem c9_registration_defaults_witness :
    ∃ rd, normalizeRelation exInflect "users" "projects"
        { hasMany := some "projects", foreignKey := some "ownerId" } = .ok rd ∧
      rd.key = "ownerId" :=
  ⟨_, rfl,
    (c9_registration_defaults exInflect "users" "projects"
      { hasMany := some "projects", foreignKey := some "ownerId" } _ rfl).1 (by decide)⟩

/-! Claim C10: belongsTo / hasAndBelongsToMany relations never cascade. -/

/-- Claim C10: every relation declared `belongsTo` or `hasAndBelongsToMany`
is registered with `dependent = false` (whatever `dependent` the caller
supplied, since the branches at `util.ts` L99 and L105 overwrite it), so
`destroy` never performs a full cascading delete through such a relation:
a normalized `belongsTo` relation never enters `destroyDependentRelations`
of any model spec, and a `hasAndBelongsToMany` relation's cascade targets
only the join table keyed by the source key. -/
theorem c10_dependent_forced_false (inflect : Inflector) (tn rn : String)
    (input : RelationInput) :
    (strTruthy input.hasAndBelongsToMany = true →
      ∃ rd, normalizeRelation inflect tn rn input = .ok rd ∧ rd.dependent = false ∧
        rd.type = .hasAndBelongsToMany ∧
        destroyCascadeTarget rd = (rd.throughTable.getD "", rd.sourceKey.getD "")) ∧
    (strTruthy input.hasAndBelongsToMany = false → strTruthy input.belongsTo = true →
      ∃ rd, normalizeRelation inflect tn rn input = .ok rd ∧ rd.dependent = false ∧
        ∀ spec : ModelSpec, rd ∉ destroyDependentRelations spec) := by
  constructor
  · intro h1
    unfold normalizeRelation
    rw [if_pos h1]
    exact ⟨_, rfl, rfl, rfl, rfl⟩
  · intro h1 h2
    unfold normalizeRelation
    rw [if_neg (by simp [h1]), if_pos h2]
    refine ⟨_, rfl, rfl, fun spec hmem => ?_⟩
    unfold destroyDependentRelations at hmem
    rw [List.mem_filter] at hmem
    simp at hmem

/-- Witness for C10 at a concrete registration that supplies
`dependent: true` on a `belongsTo` relation: the canonical relation still
carries `dependent = false`. -/
theorem c10_dependent_forced_false_witness :
    ∃ rd, normalizeRelation exInflect "projects" "user"
        { belongsTo := some "users", dependent := some true } = .ok rd ∧
      rd.dependent = false := by
  obtain ⟨rd, h1, h2, h3⟩ :=
    (c10_dependent_forced_false exInflect "projects" "user"
      { belongsTo := some "users", dependent := some true }).2 (by decide) (by decide)
  exact ⟨rd, h1, h2⟩

/-! Claim C5: the destroy cascade. -/

theorem cascadeFold_table_notmem (drs : List RelationDefn) (db : Database)
    (objectId : Value) (tn : String)
    (h : ∀ dr ∈ drs, (destroyCascadeTarget dr).1 ≠ tn) :
    (drs.foldl (cascadeStep objectId) db).table tn = db.table tn := by
  induction drs generalizing db with
  | nil => rfl
  | cons a rest ih =>
    simp only [List.foldl]
    rw [ih _ (fun dr hdr => h dr (List.mem_cons_of_mem a hdr))]
    simp only [cascadeStep]
    rw [Database.table_setTable_ne _ _ _ _
      (fun he => h a (List.mem_cons_self a rest) he.symm)]

theorem cascadeFold_table_mem (drs : List RelationDefn) (db : Database)
    (objectId : Value)
    (hnodup : (drs.map (fun dr => (destroyCascadeTarget dr).1)).Nodup) :
    ∀ dr ∈ drs, (drs.foldl (cascadeStep objectId) db).table (destroyCascadeTarget dr).1 =
      (db.table (destroyCascadeTarget dr).1).filter
        (fun row => !(getField row (destroyCascadeTarget dr).2 == objectId)) := by
  induction drs generalizing db with
  | nil => intro dr h; cases h
  | cons a rest ih =>
    intro dr hdr
    rw [List.map_cons, List.nodup_cons] at hnodup
    rcases List.mem_cons.mp hdr with heq | hmem
    · subst heq
      simp only [List.foldl]
      rw [cascadeFold_table_notmem _ _ _ _
        (fun dr2 hdr2 he =>
          hnodup.1 (by rw [← he]; exact List.mem_map_of_mem _ hdr2))]
      simp only [cascadeStep]
      rw [Database.table_setTable_self]
    · simp only [List.foldl]
      rw [ih _ hnodup.2 dr hmem]
      simp only [cascadeStep]
      rw [Database.table_setTable_ne _ _ _ _
        (fun he =>
          hnodup.1 (by rw [← he]; exact List.mem_map_of_mem _ hmem))]

/-- Claim C5: when `beforeDestroy` does not cancel, `destroy` deletes the
record's own row by identity and then, for every relation in
`destroyDependentRelations` (exactly the `dependent: true` relations plus
every `hasAndBelongsToMany` relation), deletes the rows of its cascade
target — the related table keyed by the foreign key for dependent
relations, the join table keyed by the source key for many-to-many — and
touches no other table and no heap object. Stated for destroy cascades
whose target tables are pairwise distinct and distinct from the record's
own table. -/
theorem c5_destroy_cascade (st : St) (tableName : String) (objRef : Nat) (opts : QOpts)
    (hhook : (!opts.skipHooks && hookThrows (st.db.model tableName) "beforeDestroy") = false)
    (hnodup : ((destroyDependentRelations (st.db.model tableName)).map
      (fun dr => (destroyCascadeTarget dr).1)).Nodup)
    (hown : ∀ dr ∈ destroyDependentRelations (st.db.model tableName),
      (destroyCascadeTarget dr).1 ≠ tableName) :
    ∃ st2, destroy st tableName objRef opts = .ok (st2, objRef) ∧
      st2.db.table tableName =
        (st.db.table tableName).filter
          (fun row => !(getField row "id" == getField (st.heap.get objRef) "id")) ∧
      (∀ dr ∈ destroyDependentRelations (st.db.model tableName),
        st2.db.table (destroyCascadeTarget dr).1 =
          (st.db.table (destroyCascadeTarget dr).1).filter
            (fun row => !(getField row (destroyCascadeTarget dr).2
              == getField (st.heap.get objRef) "id"))) ∧
      (∀ tn, tn ≠ tableName →
        (∀ dr ∈ destroyDependentRelations (st.db.model tableName),
          (destroyCascadeTarget dr).1 ≠ tn) →
        st2.db.table tn = st.db.table tn) ∧
      st2.heap = st.heap := by
  unfold destroy
  rw [if_neg (by rw [hhook]; simp)]
  refine ⟨_, rfl, ?_, ?_, ?_, rfl⟩
  · rw [cascadeFold_table_notmem _ _ _ _ hown, Database.table_setTable_self]
  · intro dr hdr
    rw [cascadeFold_table_mem _ _ _ hnodup dr hdr,
      Database.table_setTable_ne _ _ _ _ (hown dr hdr)]
  · intro tn htn hcasc
    rw [cascadeFold_table_notmem _ _ _ _ hcasc, Database.table_setTable_ne _ _ _ _ htn]

/-! Lemmas about the save pipeline's stages. -/

theorem coerceValue_scalar (v : Value) (h1 : v.isObjectType = false)
    (h2 : v ≠ .vStr "null") : coerceValue v = v := by
  unfold coerceValue
  simp only [h1]
  rw [if_neg (by simp [h2])]
  simp

theorem recordExists_updatedAt_irrel (db : Database) (tn : String) (idv : Value)
    (opts : QOpts) (x : Option Nat) :
    recordExists db tn idv { opts with updatedAt := x } = recordExists db tn idv opts := rfl

theorem ensureId_st_heap (st1 : St) (r : Record) : (ensureId st1 r).1.heap = st1.heap := by
  unfold ensureId; split <;> rfl

theorem ensureId_st_db (st1 : St) (r : Record) : (ensureId st1 r).1.db = st1.db := by
  unfold ensureId; split <;> rfl

theorem ensureId_st_clock (st1 : St) (r : Record) : (ensureId st1 r).1.clock = st1.clock := by
  unfold ensureId; split <;> rfl

theorem ensureId_of_hasId (st1 : St) (r : Record) (h : getField r "id" ≠ .vUndefined) :
    ensureId st1 r = (st1, r) := by
  unfold ensureId
  rw [if_neg (by simpa using h)]

/-- Frame facts of `savePrepare` that hold for every input: it leaves the
database untouched, preserves the caller's options except `updatedAt`,
allocates the working copy at the old heap frontier, and mutates no
pre-existing heap object. -/
theorem savePrepare_frame (st : St) (tn : String) (objRef : Nat) (opts : QOpts) :
    (savePrepare st tn objRef opts).st.db = st.db ∧
    (savePrepare st tn objRef opts).opts.skipHooks = opts.skipHooks ∧
    (savePrepare st tn objRef opts).opts.exists? = opts.exists? ∧
    (savePrepare st tn objRef opts).opts.updatedAt = some (savePrepare st tn objRef opts).now ∧
    (savePrepare st tn objRef opts).scRef = st.heap.next ∧
    (savePrepare st tn objRef opts).st.heap.next = st.heap.next + 1 ∧
    (∀ o2, o2 ≠ st.heap.next →
      (savePrepare st tn objRef opts).st.heap.get o2 = st.heap.get o2) := by
  refine ⟨?_, rfl, rfl, ?_, rfl, ?_, ?_⟩
  · simp only [savePrepare, stNewDate]
    rw [ensureId_st_db]
  · rfl
  · simp only [savePrepare, stNewDate, Heap.alloc, Heap.next_set]
    rw [ensureId_st_heap]
  · intro o2 h2
    simp only [savePrepare, stNewDate, Heap.alloc]
    rw [Heap.get_set_ne _ _ _ _ h2]
    rw [ensureId_st_heap]
    exact Heap.get_alloc_ne st.heap _ _ h2

theorem mem_of_contains {α : Type} [BEq α] [LawfulBEq α] {l : List α} {a : α}
    (h : l.contains a = true) : a ∈ l := by
  simpa using h

theorem truthy_ne_undefined {v : Value} (h : v.truthy = true) : v ≠ .vUndefined := by
  intro he
  subst he
  simp [Value.truthy] at h

/-- When the record already carries a stable identity (one the value
normalization keeps) and `"id"` is not a relation name, `savePrepare`
writes that identity unchanged and the existence probe reduces to
`recordExists` on the caller's database and options. -/
theorem savePrepare_id (st : St) (tn : String) (objRef : Nat) (opts : QOpts) (idv : Value)
    (hidrel : "id" ∉ (st.db.model tn).availableRelations.map (fun p => p.1))
    (hid : getField (st.heap.get objRef) "id" = idv)
    (hne : idv ≠ .vUndefined)
    (hobjt : idv.isObjectType = false)
    (hnn : idv ≠ .vStr "null") :
    getField (savePrepare st tn objRef opts).screc "id" = idv ∧
    (savePrepare st tn objRef opts).exists? = recordExists st.db tn idv opts := by
  have hnotmem : "id" ∉ ((recordKeys (st.heap.get objRef)).filter
      (fun k => (((st.db.model tn).availableRelations.map (fun p => p.1)).contains k))) :=
    fun hm => hidrel (mem_of_contains (List.of_mem_filter hm))
  have hscrec1 : getField (((recordKeys (st.heap.get objRef)).filter
      (fun k => (((st.db.model tn).availableRelations.map (fun p => p.1)).contains k))).foldl
        (fun r k => removeField r k) (st.heap.get objRef)) "id" = idv := by
    rw [getField_foldl_removeField _ _ _ hnotmem, hid]
  constructor
  · simp only [savePrepare, stNewDate]
    rw [ensureId_of_hasId _ _ (by rw [hscrec1]; exact hne)]
    rw [getField_setField_ne _ _ _ _ (by decide),
      getField_savingStringify _ _ (hasField_of_getField_ne _ _ (by rw [hscrec1]; exact hne)),
      hscrec1, coerceValue_scalar _ hobjt hnn]
  · simp only [savePrepare, stNewDate]
    rw [ensureId_of_hasId _ _ (by rw [hscrec1]; exact hne)]
    rw [getField_setField_ne _ _ _ _ (by decide),
      getField_savingStringify _ _ (hasField_of_getField_ne _ _ (by rw [hscrec1]; exact hne)),
      hscrec1, coerceValue_scalar _ hobjt hnn]
    rfl

/-! Claim C6: field-list contexts. -/

theorem hasField_setField_ne (r : Record) (k k2 : String) (v : Value) (h : k2 ≠ k) :
    hasField (setField r k v) k2 = hasField r k2 := by
  unfold hasField setField
  rw [assocFind_assocSet_ne _ _ _ _ h]

theorem recordKeys_setField_notmem (r : Record) (k : String) (v : Value)
    (h : hasField r k = false) : recordKeys (setField r k v) = recordKeys r ++ [k] := by
  induction r with
  | nil => rfl
  | cons p rest ih =>
    unfold hasField at h ih
    by_cases hp : p.1 = k
    · rw [← hp, assocFind_cons_self] at h
      simp at h
    · rw [assocFind_cons_ne _ _ _ (fun hh => hp hh.symm)] at h
      unfold setField assocSet
      rw [if_neg (by simpa using hp)]
      unfold recordKeys at ih ⊢
      simpa using ih h

theorem getField_eq_vUndefined_of_hasField_false (r : Record) (k : String)
    (h : hasField r k = false) : getField r k = .vUndefined := by
  unfold hasField at h
  unfold getField
  cases hf : assocFind r k with
  | none => rfl
  | some v => rw [hf] at h; simp at h

/-- Behaviour of the field-list projection fold: starting from an
accumulator holding none of the listed keys, the result's keys are exactly
the listed keys whose values in the source record are truthy, listed
non-relation fields are copied verbatim, and unlisted keys keep their
accumulator value. -/
theorem contextFold_spec (proj : String → Option String → Value → Value)
    (avail : List (String × RelationDefn)) (cn : Option String) (r : Record)
    (l : List String) (acc : Record) (hnodup : l.Nodup)
    (hdisj : ∀ k ∈ l, hasField acc k = false) :
    recordKeys (l.foldl (contextFoldStep proj avail cn r) acc) =
      recordKeys acc ++ l.filter (fun k => (getField r k).truthy) ∧
    (∀ k ∈ l, (getField r k).truthy = true → k ∉ avail.map (fun p => p.1) →
      getField (l.foldl (contextFoldStep proj avail cn r) acc) k = getField r k) ∧
    (∀ k, k ∉ l →
      getField (l.foldl (contextFoldStep proj avail cn r) acc) k = getField acc k) := by
  induction l generalizing acc with
  | nil => exact ⟨by simp, fun k hk => absurd hk (List.not_mem_nil k), fun k _ => rfl⟩
  | cons a rest ih =>
    rw [List.nodup_cons] at hnodup
    by_cases htr : (getField r a).truthy = true
    · -- the head field is kept: the step writes it into the accumulator
      have hstep : ∃ v, contextFoldStep proj avail cn r acc a = setField acc a v := by
        unfold contextFoldStep
        rw [if_neg (by simp [htr])]
        by_cases hrel : (avail.map (fun p => p.1)).contains a = true
        · rw [if_pos hrel]
          cases hf : avail.find? (fun p => p.1 == a) with
          | some p => exact ⟨_, rfl⟩
          | none =>
            rw [List.find?_eq_none] at hf
            rcases (by simpa using hrel : ∃ x, (a, x) ∈ avail) with ⟨x, hx⟩
            exact absurd (by simp : (((a, x) : String × RelationDefn).1 == a) = true)
              (hf _ hx)
        · rw [if_neg hrel]
          exact ⟨_, rfl⟩
      rcases hstep with ⟨v, hv⟩
      have hdisj2 : ∀ k ∈ rest, hasField (setField acc a v) k = false := fun k hk =>
        (hasField_setField_ne _ _ _ _
            (fun he => hnodup.1 (by rw [← he]; exact hk))).trans
          (hdisj k (List.mem_cons_of_mem a hk))
      obtain ⟨ihk, ihm, ihf⟩ := ih (setField acc a v) hnodup.2 hdisj2
      simp only [List.foldl, hv]
      refine ⟨?_, ?_, ?_⟩
      · rw [ihk, recordKeys_setField_notmem _ _ _ (hdisj a (List.mem_cons_self a rest))]
        simp [htr]
      · intro k hk hktr hkrel
        rcases List.mem_cons.mp hk with heq | hmem
        · subst heq
          -- the head was written by the step; a non-relation field is
          -- copied verbatim
          have hkrel2 : ¬∃ x, ((k, x) : String × RelationDefn) ∈ avail := by
            simpa using hkrel
          have hstep2 : contextFoldStep proj avail cn r acc k
              = setField acc k (getField r k) := by
            unfold contextFoldStep
            rw [if_neg (by simp [htr]), if_neg (by
              cases hc : (avail.map (fun p => p.1)).contains k with
              | false => simp
              | true => exact absurd (by simpa using hc) hkrel2)]
          have hveq : v = getField r k := by
            rw [hstep2] at hv
            have h1 := getField_setField_self acc k (getField r k)
            rw [hv, getField_setField_self] at h1
            exact h1
          rw [ihf k hnodup.1, getField_setField_self]
          exact hveq
        · exact ihm k hmem hktr hkrel
      · intro k hk
        rw [ihf k (fun hm => hk (List.mem_cons_of_mem a hm)),
          getField_setField_ne _ _ _ _ (fun he => hk (by rw [he]; exact List.mem_cons_self a rest))]
    · -- the head field is dropped
      have hstep : contextFoldStep proj avail cn r acc a = acc := by
        unfold contextFoldStep
        rw [if_pos (by simp [Bool.not_eq_true] at htr; simp [htr])]
      obtain ⟨ihk, ihm, ihf⟩ := ih acc hnodup.2
        (fun k hk => hdisj k (List.mem_cons_of_mem a hk))
      simp only [List.foldl, hstep]
      refine ⟨?_, ?_, ?_⟩
      · rw [ihk]
        simp [htr]
      · intro k hk hktr hkrel
        rcases List.mem_cons.mp hk with heq | hmem
        · subst heq; exact absurd hktr htr
        · exact ihm k hmem hktr hkrel
      · intro k hk
        exact ihf k (fun hm => hk (List.mem_cons_of_mem a hm))

/-- Claim C6 counterexample: a field present in the record but holding a
falsy value (the empty string here) is dropped by a field-list context —
the projection tests the JavaScript truthiness of `object[key]`, not key
presence — so the result does not have exactly the listed present keys. -/
theorem c6_counterexample :
    withContext (fun _ _ v => v) none [] [("firstName", Value.vStr "")]
        (Ctx.fields ["firstName"]) = .ok [] ∧
    hasField [("firstName", Value.vStr "")] "firstName" = true :=
  ⟨rfl, rfl⟩

/-- Claim C6 (amended): for a duplicate-free, non-empty field list that
does not begin with the wildcard `"*"`, `withContext` returns an object
whose keys are exactly the listed fields whose values in the record are
truthy — present-but-falsy fields are dropped — and every listed
non-relation field is copied with its value from the record. (An empty or
wildcard-headed list returns the record unchanged instead.) -/
theorem c6_withContext_fields (proj : String → Option String → Value → Value)
    (contexts? : Option (List (String × Ctx))) (avail : List (String × RelationDefn))
    (r : Record) (l : List String)
    (hne : l ≠ []) (hstar : l.headD "" ≠ "*") (hnodup : l.Nodup) :
    ∃ out, withContext proj contexts? avail r (Ctx.fields l) = .ok out ∧
      recordKeys out = l.filter (fun k => (getField r k).truthy) ∧
      ∀ k ∈ l, (getField r k).truthy = true → k ∉ avail.map (fun p => p.1) →
        getField out k = getField r k := by
  obtain ⟨hk, hm, _⟩ := contextFold_spec proj avail none r l [] hnodup
    (fun k _ => rfl)
  refine ⟨_, ?_, hk, hm⟩
  simp only [withContext]
  rw [if_pos (by
    rw [Bool.and_eq_true]
    exact ⟨by simpa using List.length_pos.mpr hne, by simpa using hstar⟩)]

/-- Witness for C6 (amended): the simple two-field context keeps exactly
`firstName` and `lastName` and copies their values. -/
theorem c6_withContext_fields_witness :
    ∃ out, withContext (fun _ _ v => v) none []
        [("firstName", Value.vStr "Nathan"), ("lastName", Value.vStr "Hoad"),
         ("email", Value.vStr "x")]
        (Ctx.fields ["firstName", "lastName"]) = .ok out ∧
      recordKeys out = (["firstName", "lastName"].filter
        (fun k => (getField [("firstName", Value.vStr "Nathan"),
          ("lastName", Value.vStr "Hoad"), ("email", Value.vStr "x")] k).truthy)) ∧
      ∀ k ∈ ["firstName", "lastName"],
        (getField [("firstName", Value.vStr "Nathan"), ("lastName", Value.vStr "Hoad"),
          ("email", Value.vStr "x")] k).truthy = true →
        k ∉ ([] : List (String × RelationDefn)).map (fun p => p.1) →
        getField out k = getField [("firstName", Value.vStr "Nathan"),
          ("lastName", Value.vStr "Hoad"), ("email", Value.vStr "x")] k :=
  c6_withContext_fields (fun _ _ v => v) none []
    [("firstName", Value.vStr "Nathan"), ("lastName", Value.vStr "Hoad"),
     ("email", Value.vStr "x")]
    ["firstName", "lastName"] (by decide) (by decide) (by decide)

/-- Witness for C5: destroying user `u1` (owner of a `dependent: true`
hasMany `tasks` relation and a habtm `projects` relation) removes its
`users` row, its `tasks` rows and its `projects_users` join rows, leaving
the other user's rows alone. -/
theorem c5_destroy_cascade_witness :
    ∃ st2, destroy stDestroyEx "users" 0 {} = .ok (st2, 0) ∧
      st2.db.table "users" =
        (stDestroyEx.db.table "users").filter
          (fun row => !(getField row "id" == getField (stDestroyEx.heap.get 0) "id")) ∧
      (∀ dr ∈ destroyDependentRelations (stDestroyEx.db.model "users"),
        st2.db.table (destroyCascadeTarget dr).1 =
          (stDestroyEx.db.table (destroyCascadeTarget dr).1).filter
            (fun row => !(getField row (destroyCascadeTarget dr).2
              == getField (stDestroyEx.heap.get 0) "id"))) ∧
      (∀ tn, tn ≠ "users" →
        (∀ dr ∈ destroyDependentRelations (stDestroyEx.db.model "users"),
          (destroyCascadeTarget dr).1 ≠ tn) →
        st2.db.table tn = stDestroyEx.db.table tn) ∧
      st2.heap = stDestroyEx.heap :=
  c5_destroy_cascade stDestroyEx "users" 0 {} (by decide) (by decide) (by decide)

/-! Record-key bookkeeping: key sets under the record operations, and how
an SQL update (`mergeRecord`) reads back. -/

theorem hasField_iff_mem_keys (r : Record) (k : String) :
    hasField r k = true ↔ k ∈ recordKeys r := by
  induction r with
  | nil => simp [hasField, assocFind, recordKeys]
  | cons p rest ih =>
    by_cases hp : p.1 = k
    · unfold hasField
      rw [← hp, assocFind_cons_self]
      simp [recordKeys]
    · unfold hasField at ih ⊢
      rw [assocFind_cons_ne _ _ _ (fun hh => hp hh.symm)]
      simp only [recordKeys, List.map_cons, List.mem_cons]
      rw [ih]
      constructor
      · exact fun h => Or.inr h
      · rintro (h | h)
        · exact absurd h.symm hp
        · exact h

theorem recordKeys_removeField (r : Record) (k : String) :
    recordKeys (removeField r k) = (recordKeys r).filter (fun x => !(x == k)) := by
  induction r with
  | nil => rfl
  | cons p rest ih =>
    unfold removeField
    by_cases hp : p.1 = k
    · rw [if_pos (by simpa using hp), ih]
      simp [recordKeys, hp]
    · rw [if_neg (by simpa using hp)]
      simp only [recordKeys, List.map_cons, List.filter]
      rw [(by simpa using hp : (!(p.1 == k)) = true)]
      unfold recordKeys at ih
      rw [ih]

theorem nodup_keys_removeField (r : Record) (k : String)
    (h : (recordKeys r).Nodup) : (recordKeys (removeField r k)).Nodup := by
  rw [recordKeys_removeField]
  exact h.filter _

theorem nodup_keys_foldl_removeField (ks : List String) (r : Record)
    (h : (recordKeys r).Nodup) :
    (recordKeys (ks.foldl (fun r k => removeField r k) r)).Nodup := by
  induction ks generalizing r with
  | nil => exact h
  | cons a rest ih => exact ih _ (nodup_keys_removeField _ _ h)

theorem recordKeys_setField_mem (r : Record) (k : String) (v : Value)
    (h : hasField r k = true) : recordKeys (setField r k v) = recordKeys r := by
  induction r with
  | nil => simp [hasField, assocFind] at h
  | cons p rest ih =>
    unfold setField assocSet
    by_cases hp : p.1 = k
    · rw [if_pos (by simpa using hp)]
      simp [recordKeys, hp]
    · rw [if_neg (by simpa using hp)]
      unfold hasField at h ih
      rw [assocFind_cons_ne _ _ _ (fun hh => hp hh.symm)] at h
      unfold setField at ih
      simp only [recordKeys, List.map_cons]
      have h2 := ih h
      unfold recordKeys at h2
      rw [h2]

theorem nodup_keys_setField (r : Record) (k : String) (v : Value)
    (h : (recordKeys r).Nodup) : (recordKeys (setField r k v)).Nodup := by
  cases hf : hasField r k with
  | true => rw [recordKeys_setField_mem _ _ _ hf]; exact h
  | false =>
    rw [recordKeys_setField_notmem _ _ _ hf]
    rw [List.nodup_append]
    exact ⟨h, List.nodup_singleton k,
      fun a ha hb => by
        rw [List.mem_singleton] at hb
        subst hb
        exact absurd ((hasField_iff_mem_keys r a).mpr ha) (by simp [hf])⟩

theorem nodup_keys_savingStringify (r : Record) (h : (recordKeys r).Nodup) :
    (recordKeys (savingStringify r)).Nodup := by
  rw [recordKeys_savingStringify]; exact h

/-- In a record with duplicate-free keys, every binding agrees with
`getField`. -/
theorem binding_eq_getField_of_nodup (r : Record) (hn : (recordKeys r).Nodup)
    (p : String × Value) (hmem : p ∈ r) : getField r p.1 = p.2 := by
  induction r with
  | nil => cases hmem
  | cons q rest ih =>
    simp only [recordKeys, List.map_cons, List.nodup_cons] at hn
    rcases List.mem_cons.mp hmem with heq | hmem2
    · subst heq
      unfold getField
      rw [assocFind_cons_self]
    · unfold getField
      rw [assocFind_cons_ne _ _ _ (fun hh : p.1 = q.1 => hn.1 (by
        rw [← hh]
        exact List.mem_map_of_mem _ hmem2))]
      exact ih hn.2 hmem2

theorem getField_mergeRecord_notmem (row patch : Record) (k : String)
    (h : hasField patch k = false) :
    getField (mergeRecord row patch) k = getField row k := by
  induction patch generalizing row with
  | nil => rfl
  | cons q rest ih =>
    unfold hasField at h ih
    by_cases hq : q.1 = k
    · rw [← hq, assocFind_cons_self] at h
      simp at h
    · rw [assocFind_cons_ne _ _ _ (fun hh => hq hh.symm)] at h
      unfold mergeRecord at ih ⊢
      simp only [List.foldl]
      rw [ih _ h, getField_setField_ne _ _ _ _ (fun hh => hq hh.symm)]

theorem getField_mergeRecord_mem (row patch : Record) (k : String) (v : Value)
    (hmem : hasField patch k = true)
    (hall : ∀ p ∈ patch, p.1 = k → p.2 = v) :
    getField (mergeRecord row patch) k = v := by
  induction patch generalizing row with
  | nil => simp [hasField, assocFind] at hmem
  | cons q rest ih =>
    unfold mergeRecord at ih ⊢
    simp only [List.foldl]
    cases hr : hasField rest k with
    | true =>
      exact ih _ hr (fun p hp hpk => hall p (List.mem_cons_of_mem q hp) hpk)
    | false =>
      have hqk : q.1 = k := by
        by_contra hq
        unfold hasField at hmem hr
        rw [assocFind_cons_ne _ _ _ (fun hh => hq hh.symm)] at hmem
        rw [hmem] at hr
        cases hr
      rw [show List.foldl (fun r p => setField r p.1 p.2) (setField row q.1 q.2) rest
          = mergeRecord (setField row q.1 q.2) rest from rfl]
      rw [getField_mergeRecord_notmem _ _ _ hr, hqk, getField_setField_self]
      exact hall q (List.mem_cons_self q rest) hqk

/-! The write stage and the relation-free instance of the save pipeline. -/

theorem hookThrows_empty (spec : ModelSpec) (h : spec.hooks = []) (name : String) :
    hookThrows spec name = false := by
  unfold hookThrows
  rw [h]
  rfl

theorem Database.model_congr_models (db1 db2 : Database) (n : String)
    (h : db1.models = db2.models) : db1.model n = db2.model n := by
  unfold Database.model
  rw [h]

theorem saveRelations_empty (sf : SaveFn) (st : St) (tn : String) (o : Nat) (opts : QOpts)
    (h : (st.db.model tn).availableRelations = []) :
    saveRelations sf st tn o opts = .ok (st, o) := by
  unfold saveRelations
  simp [h]

theorem savePrepare_relations_empty (st : St) (tn : String) (o : Nat) (opts : QOpts)
    (h : (st.db.model tn).availableRelations = []) :
    (savePrepare st tn o opts).relations = [] := by
  simp [savePrepare, h]

theorem savePrepare_exists_flag (st : St) (tn : String) (o : Nat) (opts : QOpts) (b : Bool)
    (h : opts.exists? = some b) : (savePrepare st tn o opts).exists? = b := by
  simp only [savePrepare, recordExists]
  rw [show ({ opts with updatedAt := some (stNewDate (ensureId { st with
    heap := (st.heap.alloc (st.heap.get o)).1 }
    (((recordKeys (st.heap.get o)).filter
      (fun k => (((st.db.model tn).availableRelations.map (fun p => p.1)).contains k))).foldl
        (fun r k => removeField r k) (st.heap.get o))).1).2 } : QOpts).exists?
      = opts.exists? from rfl, h]

theorem ensureId_snd_keys_nodup (st1 : St) (r : Record) (h : (recordKeys r).Nodup) :
    (recordKeys (ensureId st1 r).2).Nodup := by
  unfold ensureId
  split
  · exact nodup_keys_setField _ _ _ h
  · exact h

theorem nodup_keys_savePrepare (st : St) (tn : String) (o : Nat) (opts : QOpts)
    (h : (recordKeys (st.heap.get o)).Nodup) :
    (recordKeys (savePrepare st tn o opts).screc).Nodup := by
  simp only [savePrepare, stNewDate]
  exact nodup_keys_setField _ _ _ (nodup_keys_savingStringify _
    (ensureId_snd_keys_nodup _ _ (nodup_keys_foldl_removeField _ _ h)))

theorem ensureId_snd_hasId (st1 : St) (r : Record) :
    getField (ensureId st1 r).2 "id" ≠ .vUndefined := by
  unfold ensureId
  split
  · rw [getField_setField_self]
    simp
  · next hc =>
    simpa using hc

theorem hasField_savingStringify (r : Record) (k : String) :
    hasField (savingStringify r) k = hasField r k := by
  cases hf : hasField r k with
  | true =>
    rw [hasField_iff_mem_keys, recordKeys_savingStringify]
    exact (hasField_iff_mem_keys r k).mp hf
  | false =>
    cases hg : hasField (savingStringify r) k with
    | false => rfl
    | true =>
      rw [hasField_iff_mem_keys, recordKeys_savingStringify,
        ← hasField_iff_mem_keys, hf] at hg
      cases hg

/-- The row `savePrepare` hands to the write stage always carries an
`"id"` column. -/
theorem hasField_savePrepare_screc_id (st : St) (tn : String) (o : Nat) (opts : QOpts) :
    hasField (savePrepare st tn o opts).screc "id" = true := by
  simp only [savePrepare, stNewDate]
  rw [hasField_setField_ne _ _ _ _ (by decide), hasField_savingStringify]
  exact hasField_of_getField_ne _ _ (ensureId_snd_hasId _ _)

/-- Characterization of `saveWrite`: it touches only the written table and
nothing else in the state; an insert appends the row (with `createdAt` set
to the shared timestamp) and returns it, an update merges the written
columns into every matching row and returns the first one. -/
theorem saveWrite_spec (tn : String) (prep : SavePrep) :
    (saveWrite tn prep).1.db.models = prep.st.db.models ∧
    (saveWrite tn prep).1.heap = prep.st.heap ∧
    (∀ tn2, tn2 ≠ tn → (saveWrite tn prep).1.db.table tn2 = prep.st.db.table tn2) ∧
    (prep.exists? = false →
      (saveWrite tn prep).1.db.table tn =
        prep.st.db.table tn ++ [setField prep.screc "createdAt" (Value.vDate prep.now)] ∧
      (saveWrite tn prep).2 = setField prep.screc "createdAt" (Value.vDate prep.now)) ∧
    (prep.exists? = true →
      (saveWrite tn prep).1.db.table tn =
        (prep.st.db.table tn).map (fun row =>
          if getField row "id" == getField prep.screc "id"
          then mergeRecord row prep.screc else row) ∧
      (saveWrite tn prep).2 = (((prep.st.db.table tn).filter (fun row =>
          getField row "id" == getField prep.screc "id")).map
          (fun row => mergeRecord row prep.screc)).headD []) := by
  unfold saveWrite
  cases hex : prep.exists? with
  | true =>
    exact ⟨Database.models_setTable _ _ _, rfl,
      fun tn2 h2 => Database.table_setTable_ne _ _ _ _ h2,
      fun hf => absurd hf (by decide),
      fun _ => ⟨Database.table_setTable_self _ _ _, rfl⟩⟩
  | false =>
    exact ⟨Database.models_setTable _ _ _, rfl,
      fun tn2 h2 => Database.table_setTable_ne _ _ _ _ h2,
      fun _ => ⟨Database.table_setTable_self _ _ _, rfl⟩,
      fun hf => absurd hf (by decide)⟩

theorem saveAfterHooks_empty (spec : ModelSpec) (opts : QOpts) (e : Bool) (res : St × Nat)
    (h : spec.hooks = []) : saveAfterHooks spec opts e res = .ok res := by
  unfold saveAfterHooks
  rw [hookThrows_empty _ h "afterSave", hookThrows_empty _ h "afterCreate"]
  simp

/-- A save against a model with no relations and no hooks: it succeeds,
writes only the model's own table (an append for an insert, a per-matching-
row merge for an update), and touches no pre-existing heap object. The
saved object's identity is the one `savePrepare` fixed. -/
theorem save_noRelations (fuel : Nat) (st : St) (tn : String) (o : Nat) (opts : QOpts)
    (b : Bool)
    (hrel : (st.db.model tn).availableRelations = [])
    (hhooks : (st.db.model tn).hooks = [])
    (hex : opts.exists? = some b) :
    ∃ st2 ref2, save (fuel+1) st tn o opts = .ok (st2, ref2) ∧
      st2.db.models = st.db.models ∧
      (∀ tn2, tn2 ≠ tn → st2.db.table tn2 = st.db.table tn2) ∧
      (∀ o2, o2 < st.heap.next → st2.heap.get o2 = st.heap.get o2) ∧
      st.heap.next ≤ st2.heap.next ∧
      (b = false → st2.db.table tn = st.db.table tn ++
        [setField (savePrepare st tn o opts).screc "createdAt"
          (Value.vDate (savePrepare st tn o opts).now)]) ∧
      (b = true → st2.db.table tn = (st.db.table tn).map (fun row =>
        if getField row "id" == getField (savePrepare st tn o opts).screc "id"
        then mergeRecord row (savePrepare st tn o opts).screc else row)) ∧
      (b = false → getField (st2.heap.get ref2) "id"
        = getField (savePrepare st tn o opts).screc "id") ∧
      (b = true → (∃ row, row ∈ st.db.table tn ∧
          getField row "id" = getField (savePrepare st tn o opts).screc "id") →
        (recordKeys (st.heap.get o)).Nodup →
        getField (st2.heap.get ref2) "id" = getField (savePrepare st tn o opts).screc "id") := by
  obtain ⟨hdb, hsk, hexo, hupd, hscRef, hnext, hframe⟩ := savePrepare_frame st tn o opts
  have hpex := savePrepare_exists_flag st tn o opts b hex
  obtain ⟨wm, wh, wt, wfalse, wtrue⟩ := saveWrite_spec tn (savePrepare st tn o opts)
  have hrelE := savePrepare_relations_empty st tn o opts hrel
  have hm6 : ((saveWrite tn (savePrepare st tn o opts)).1.db).models = st.db.models := by
    rw [wm, hdb]
  have havail6 : (((saveWrite tn (savePrepare st tn o opts)).1.db).model tn).availableRelations
      = [] := by
    rw [Database.model_congr_models _ st.db _ hm6]
    exact hrel
  have heq : save (fuel+1) st tn o opts = .ok
      ({ (saveWrite tn (savePrepare st tn o opts)).1 with
          heap := (((saveWrite tn (savePrepare st tn o opts)).1.heap.alloc
              (saveWrite tn (savePrepare st tn o opts)).2).1).set
            (((saveWrite tn (savePrepare st tn o opts)).1.heap.alloc
              (saveWrite tn (savePrepare st tn o opts)).2).2)
            ((savePrepare st tn o opts).relations.foldl (fun r p => setField r p.1 p.2)
              (saveWrite tn (savePrepare st tn o opts)).2) },
        ((saveWrite tn (savePrepare st tn o opts)).1.heap.alloc
          (saveWrite tn (savePrepare st tn o opts)).2).2) := by
    simp only [save]
    rw [if_neg (by
      rw [hookThrows_empty _ hhooks "beforeCreate", hookThrows_empty _ hhooks "beforeSave"]
      simp)]
    rw [saveRelations_empty (save fuel) _ tn _ _ (by exact havail6)]
    simp only []
    rw [saveAfterHooks_empty _ _ _ _ hhooks]
  refine ⟨_, _, heq, ?_, ?_, ?_, ?_, ?_, ?_, ?_, ?_⟩
  · -- models preserved
    show ((saveWrite tn (savePrepare st tn o opts)).1.db).models = st.db.models
    exact hm6
  · -- other tables preserved
    intro tn2 h2
    show ((saveWrite tn (savePrepare st tn o opts)).1.db).table tn2 = st.db.table tn2
    rw [wt tn2 h2, hdb]
  · -- pre-existing heap objects preserved
    intro o2 ho2
    show ((((saveWrite tn (savePrepare st tn o opts)).1.heap.alloc
        (saveWrite tn (savePrepare st tn o opts)).2).1).set
        ((saveWrite tn (savePrepare st tn o opts)).1.heap.alloc
          (saveWrite tn (savePrepare st tn o opts)).2).2 _).get o2 = st.heap.get o2
    rw [Heap.get_set_ne _ _ _ _ (by
      show o2 ≠ (saveWrite tn (savePrepare st tn o opts)).1.heap.next
      rw [wh, hnext]
      omega)]
    rw [Heap.get_alloc_ne _ _ _ (by
      rw [wh, hnext]
      omega)]
    rw [wh]
    exact hframe o2 (Nat.ne_of_lt ho2)
  · -- the heap frontier only grows
    show ((((saveWrite tn (savePrepare st tn o opts)).1.heap.alloc
        (saveWrite tn (savePrepare st tn o opts)).2).1).set _ _).next ≥ st.heap.next
    rw [Heap.next_set]
    show (saveWrite tn (savePrepare st tn o opts)).1.heap.next + 1 ≥ st.heap.next
    rw [wh, hnext]
    omega
  · -- insert: the own table gains exactly the written row
    intro hb
    obtain ⟨ht, _⟩ := wfalse (by rw [hpex, hb])
    show ((saveWrite tn (savePrepare st tn o opts)).1.db).table tn = _
    rw [ht, hdb]
  · -- update: the own table is the per-matching-row merge
    intro hb
    obtain ⟨ht, _⟩ := wtrue (by rw [hpex, hb])
    show ((saveWrite tn (savePrepare st tn o opts)).1.db).table tn = _
    rw [ht, hdb]
  · -- insert: the returned object keeps the prepared identity
    intro hb
    obtain ⟨_, hres⟩ := wfalse (by rw [hpex, hb])
    rw [Heap.get_set_self, hrelE]
    simp only [List.foldl]
    rw [hres, getField_setField_ne _ _ _ _ (by decide)]
  · -- update: the returned object keeps the prepared identity
    intro hb hrow hnodup
    obtain ⟨_, hres⟩ := wtrue (by rw [hpex, hb])
    rw [Heap.get_set_self, hrelE]
    simp only [List.foldl]
    rw [hres]
    obtain ⟨row, hm, hrid⟩ := hrow
    have hmT : row ∈ (savePrepare st tn o opts).st.db.table tn := by
      rw [hdb]; exact hm
    cases hfl : ((savePrepare st tn o opts).st.db.table tn).filter
        (fun row => getField row "id" == getField (savePrepare st tn o opts).screc "id") with
    | nil =>
      exfalso
      have : row ∈ ((savePrepare st tn o opts).st.db.table tn).filter
          (fun row => getField row "id" == getField (savePrepare st tn o opts).screc "id") :=
        List.mem_filter.mpr ⟨hmT, by simp [hrid]⟩
      rw [hfl] at this
      cases this
    | cons r0 rest =>
      have hr0 : r0 ∈ ((savePrepare st tn o opts).st.db.table tn).filter
          (fun row => getField row "id" == getField (savePrepare st tn o opts).screc "id") := by
        rw [hfl]; exact List.mem_cons_self r0 rest
      have hp0 : (getField r0 "id" == getField (savePrepare st tn o opts).screc "id") = true :=
        (List.mem_filter.mp hr0).2
      simp only [List.map, List.headD]
      exact getField_mergeRecord_mem r0 _ _ _ (hasField_savePrepare_screc_id st tn o opts)
        (fun p hp hpk =>
          (binding_eq_getField_of_nodup _ (nodup_keys_savePrepare st tn o opts hnodup) p hp).symm.trans
            (by rw [hpk]))

/-! The hasMany save loop, one step and then the whole fold. -/

/-- One `hasManyStep` against a relation-free, hook-free related model: it
succeeds, mutates exactly the related object (setting its foreign key in
place) among pre-existing heap objects, and preserves every related-table
row whose identity is outside the safe set `S` (a superset of
`existingIds` whose members are truthy). -/
theorem hasManyStep_spec (fuel : Nat) (relation : RelationDefn) (objectId : Value)
    (existingIds : List Value) (opts : QOpts) (S : List Value) (st1 : St)
    (refs : List Nat) (c : Nat)
    (hkid : relation.key ≠ "id")
    (h1 : (st1.db.model relation.tableName).availableRelations = [])
    (h2 : (st1.db.model relation.tableName).hooks = [])
    (hSsub : ∀ v ∈ existingIds, v ∈ S)
    (hStruthy : ∀ v ∈ S, v.truthy = true)
    (hc : c < st1.heap.next)
    (hstable : IdStable (getField (st1.heap.get c) "id")) :
    ∃ st2 ref2, hasManyStep (save (fuel+1)) relation objectId existingIds opts
        (.ok (st1, refs)) c = .ok (st2, refs ++ [ref2]) ∧
      st2.db.models = st1.db.models ∧
      (∀ tn2, tn2 ≠ relation.tableName → st2.db.table tn2 = st1.db.table tn2) ∧
      (∀ o2, o2 < st1.heap.next → o2 ≠ c → st2.heap.get o2 = st1.heap.get o2) ∧
      st1.heap.next ≤ st2.heap.next ∧
      st2.heap.get c = setField (st1.heap.get c) relation.key objectId ∧
      (∀ row ∈ st1.db.table relation.tableName, getField row "id" ∉ S →
        row ∈ st2.db.table relation.tableName) := by
  have hrid : getField (setField (st1.heap.get c) relation.key objectId) "id"
      = getField (st1.heap.get c) "id" :=
    getField_setField_ne _ _ _ _ (fun he => hkid he.symm)
  obtain ⟨st2, ref2, heq2, hm2, ht2, hf2, hn2, hfalse2, htrue2, _, _⟩ :=
    save_noRelations fuel
      { st1 with heap := st1.heap.set c (setField (st1.heap.get c) relation.key objectId) }
      relation.tableName c
      { opts with exists? := some (existingIds.contains
          (getField (setField (st1.heap.get c) relation.key objectId) "id")) }
      (existingIds.contains (getField (setField (st1.heap.get c) relation.key objectId) "id"))
      (by exact h1) (by exact h2) rfl
  refine ⟨st2, ref2, ?_, by exact hm2, by exact ht2, ?_, by exact hn2, ?_, ?_⟩
  · simp only [hasManyStep]
    rw [heq2]
  · intro o2 ho2 hoc
    exact (hf2 o2 (by exact ho2)).trans (Heap.get_set_ne _ _ _ _ hoc)
  · exact (hf2 c (by exact hc)).trans (Heap.get_set_self _ _ _)
  · intro row hrow hids
    cases hex : existingIds.contains
        (getField (setField (st1.heap.get c) relation.key objectId) "id") with
    | false =>
      rw [hfalse2 hex]
      exact List.mem_append_left _ (by exact hrow)
    | true =>
      have hidin : getField (st1.heap.get c) "id" ∈ S := by
        have h3 := hSsub _ (mem_of_contains hex)
        rw [hrid] at h3
        exact h3
      have htruthy := hStruthy _ hidin
      obtain ⟨hobjt, hnn⟩ := hstable htruthy
      have hstc : ({ st1 with heap := (st1.heap.set c
          (setField (st1.heap.get c) relation.key objectId)) } : St).heap.get c
          = setField (st1.heap.get c) relation.key objectId :=
        Heap.get_set_self _ _ _
      have hpid := (savePrepare_id
        { st1 with heap := st1.heap.set c (setField (st1.heap.get c) relation.key objectId) }
        relation.tableName c
        { opts with exists? := some (existingIds.contains
            (getField (setField (st1.heap.get c) relation.key objectId) "id")) }
        (getField (st1.heap.get c) "id")
        (by rw [show (({ st1 with heap := (st1.heap.set c
            (setField (st1.heap.get c) relation.key objectId)) } : St).db.model
              relation.tableName).availableRelations = [] from h1]
            simp)
        (by rw [hstc, hrid]) (truthy_ne_undefined htruthy) hobjt hnn).1
      rw [htrue2 hex]
      have hrowskip : (if (getField row "id"
            == getField (savePrepare
              { st1 with heap := (st1.heap.set c
                (setField (st1.heap.get c) relation.key objectId)) }
              relation.tableName c
              { opts with exists? := some (existingIds.contains
                  (getField (setField (st1.heap.get c) relation.key objectId) "id")) }).screc
              "id") = true then
          mergeRecord row (savePrepare
              { st1 with heap := (st1.heap.set c
                (setField (st1.heap.get c) relation.key objectId)) }
              relation.tableName c
              { opts with exists? := some (existingIds.contains
                  (getField (setField (st1.heap.get c) relation.key objectId) "id")) }).screc
          else row) = row := by
        rw [if_neg]
        rw [hpid]
        intro hbeq
        exact hids (by rw [(by simpa using hbeq : getField row "id"
          = getField (st1.heap.get c) "id")]; exact hidin)
      exact hrowskip ▸ List.mem_map_of_mem _ (by exact hrow)

/-- The whole hasMany fold over the related objects: every related object
gets its foreign key set in place, all other pre-existing heap objects are
untouched, and every related-table row whose identity lies outside the safe
set `S` survives. -/
theorem hasManyFold_spec (fuel : Nat) (relation : RelationDefn) (objectId : Value)
    (existingIds : List Value) (opts : QOpts) (S : List Value)
    (hkid : relation.key ≠ "id")
    (hSsub : ∀ v ∈ existingIds, v ∈ S)
    (hStruthy : ∀ v ∈ S, v.truthy = true) :
    ∀ (children : List Nat) (st1 : St) (refs : List Nat),
      (st1.db.model relation.tableName).availableRelations = [] →
      (st1.db.model relation.tableName).hooks = [] →
      (∀ c ∈ children, c < st1.heap.next) →
      (∀ c ∈ children, IdStable (getField (st1.heap.get c) "id")) →
      children.Nodup →
      ∃ st2 refs2,
        children.foldl (hasManyStep (save (fuel+1)) relation objectId existingIds opts)
          (.ok (st1, refs)) = .ok (st2, refs ++ refs2) ∧
        st2.db.models = st1.db.models ∧
        (∀ tn2, tn2 ≠ relation.tableName → st2.db.table tn2 = st1.db.table tn2) ∧
        (∀ o2, o2 < st1.heap.next → o2 ∉ children → st2.heap.get o2 = st1.heap.get o2) ∧
        st1.heap.next ≤ st2.heap.next ∧
        (∀ c ∈ children, st2.heap.get c = setField (st1.heap.get c) relation.key objectId) ∧
        (∀ row ∈ st1.db.table relation.tableName, getField row "id" ∉ S →
          row ∈ st2.db.table relation.tableName) := by
  intro children
  induction children with
  | nil =>
    intro st1 refs h1 h2 hlt hstab hnodup
    exact ⟨st1, [], by simp, rfl, fun _ _ => rfl, fun _ _ _ => rfl, le_refl _,
      fun c hc => absurd hc (List.not_mem_nil c), fun row h _ => h⟩
  | cons c rest ih =>
    intro st1 refs h1 h2 hlt hstab hnodup
    have hcrest : c ∉ rest := (List.nodup_cons.mp hnodup).1
    have hnodup2 : rest.Nodup := (List.nodup_cons.mp hnodup).2
    obtain ⟨st2, ref2, hstep, hm2, ht2, hf2, hn2, hcrec, hrows2⟩ :=
      hasManyStep_spec fuel relation objectId existingIds opts S st1 refs c
        hkid h1 h2 hSsub hStruthy (hlt c (List.mem_cons_self c rest))
        (hstab c (List.mem_cons_self c rest))
    have h1b : (st2.db.model relation.tableName).availableRelations = [] := by
      rw [Database.model_congr_models st2.db st1.db relation.tableName hm2]
      exact h1
    have h2b : (st2.db.model relation.tableName).hooks = [] := by
      rw [Database.model_congr_models st2.db st1.db relation.tableName hm2]
      exact h2
    have hltb : ∀ c2 ∈ rest, c2 < st2.heap.next :=
      fun c2 hc2 => lt_of_lt_of_le (hlt c2 (List.mem_cons_of_mem c hc2)) hn2
    have hstabb : ∀ c2 ∈ rest, IdStable (getField (st2.heap.get c2) "id") := by
      intro c2 hc2
      rw [hf2 c2 (hlt c2 (List.mem_cons_of_mem c hc2))
        (fun he => hcrest (he ▸ hc2))]
      exact hstab c2 (List.mem_cons_of_mem c hc2)
    obtain ⟨st3, refs3, hfold, hm3, ht3, hf3, hn3, hcrec3, hrows3⟩ :=
      ih st2 (refs ++ [ref2]) h1b h2b hltb hstabb hnodup2
    refine ⟨st3, ref2 :: refs3, ?_, hm3.trans hm2,
      fun tn2 h => (ht3 tn2 h).trans (ht2 tn2 h), ?_,
      le_trans hn2 hn3, ?_, fun row hrow hid => hrows3 row (hrows2 row hrow hid) hid⟩
    · rw [List.foldl_cons, hstep, hfold, List.append_assoc, List.singleton_append]
    · intro o2 ho2 hnotin
      have ha := hf2 o2 ho2 (fun he => hnotin (he ▸ List.mem_cons_self c rest))
      have hb := hf3 o2 (lt_of_lt_of_le ho2 hn2)
        (fun hin => hnotin (List.mem_cons_of_mem c hin))
      exact hb.trans ha
    · intro c2 hc2
      rcases List.mem_cons.mp hc2 with he | hin
      · subst he
        rw [hf3 c2 (lt_of_lt_of_le (hlt c2 (List.mem_cons_self c2 rest)) hn2) hcrest]
        exact hcrec
      · rw [hcrec3 c2 hin,
          hf2 c2 (hlt c2 (List.mem_cons_of_mem c hin)) (fun he => hcrest (he ▸ hin))]

theorem filter_contains_singleton {α : Type} [BEq α] [LawfulBEq α] {l : List α} {a : α}
    (hnd : l.Nodup) (ha : a ∈ l) :
    l.filter (fun k => ([a] : List α).contains k) = [a] := by
  induction l with
  | nil => cases ha
  | cons b rest ih =>
    rcases List.mem_cons.mp ha with he | hin
    · subst he
      rw [List.filter_cons_of_pos (by simp)]
      have hrest : rest.filter (fun k => ([a] : List α).contains k) = [] := by
        rw [List.filter_eq_nil_iff]
        intro x hx hc
        have hxb : x = a := by simpa using hc
        exact (List.nodup_cons.mp hnd).1 (hxb ▸ hx)
      rw [hrest]
    · have hb : ¬ ((([a] : List α).contains b) = true) := by
        intro hc
        have hba : b = a := by simpa using hc
        exact (List.nodup_cons.mp hnd).1 (hba ▸ hin)
      rw [List.filter_cons_of_neg (by simpa using hb)]
      exact ih (List.nodup_cons.mp hnd).2 hin

theorem getField_foldl_setField (l : List (String × Value)) (r : Record) (k : String)
    (h : ∀ p ∈ l, p.1 ≠ k) :
    getField (l.foldl (fun r p => setField r p.1 p.2) r) k = getField r k := by
  induction l generalizing r with
  | nil => rfl
  | cons p rest ih =>
    rw [List.foldl_cons, ih _ (fun q hq => h q (List.mem_cons_of_mem p hq)),
      getField_setField_ne _ _ _ _ (fun he => (h p (List.mem_cons_self p rest)) he.symm)]

/-- With a single registered relation whose key the object carries, the
relation-detach stage of `savePrepare` collects exactly that field. -/
theorem savePrepare_relations_one (st : St) (tn : String) (objRef : Nat) (opts : QOpts)
    (rn : String) (relation : RelationDefn)
    (hspec : (st.db.model tn).availableRelations = [(rn, relation)])
    (hmem : rn ∈ recordKeys (st.heap.get objRef))
    (hnd : (recordKeys (st.heap.get objRef)).Nodup) :
    (savePrepare st tn objRef opts).relations
      = [(rn, getField (st.heap.get objRef) rn)] := by
  simp only [savePrepare]
  rw [hspec]
  simp only [List.map]
  rw [filter_contains_singleton hnd hmem]
  simp [List.map]

/-- The `hasMany` strategy against a relation-free, hook-free related
model always succeeds; it sets every related object's foreign key in place
to the parent object's identity and leaves every other pre-existing heap
object untouched. -/
theorem saveHasManyRelation_heap (fuel : Nat) (st : St) (tableName : String)
    (objRef : Nat) (relation : RelationDefn) (children : List Nat) (opts : QOpts)
    (hkid : relation.key ≠ "id")
    (h1 : (st.db.model relation.tableName).availableRelations = [])
    (h2 : (st.db.model relation.tableName).hooks = [])
    (hlt : ∀ c ∈ children, c < st.heap.next)
    (hstab : ∀ c ∈ children, IdStable (getField (st.heap.get c) "id"))
    (hnodup : children.Nodup) :
    ∃ st2 refs2,
      saveHasManyRelation (save (fuel+1)) st tableName objRef relation
        (.vArr children) opts
        = .ok (st2, ⟨relation.name, Value.vArr ([] ++ refs2), none, .vUndefined⟩) ∧
      st2.db.models = st.db.models ∧
      (∀ o2, o2 < st.heap.next → o2 ∉ children → st2.heap.get o2 = st.heap.get o2) ∧
      st.heap.next ≤ st2.heap.next ∧
      (∀ c ∈ children, st2.heap.get c = setField (st.heap.get c) relation.key
        (getField (st.heap.get objRef) "id")) := by
  have hSsub : ∀ v ∈ hasManyExisting
        (hasManyDetachSt st relation (getField (st.heap.get objRef) "id")
          (hasManyNewIds st children))
        relation (hasManyNewIds st children),
      v ∈ hasManyNewIds st children := by
    intro v hv
    obtain ⟨r, hr, hrv⟩ := List.mem_map.mp hv
    exact hrv ▸ mem_of_contains ((List.mem_filter.mp hr).2)
  have hStruthy2 : ∀ v ∈ hasManyNewIds st children, v.truthy = true := by
    intro v hv
    simpa using (List.mem_filter.mp hv).2
  obtain ⟨st2, refs2, hfoldeq, hm2, ht2, hf2, hn2, hcrec, hrows⟩ :=
    hasManyFold_spec fuel relation (getField (st.heap.get objRef) "id")
      (hasManyExisting
        (hasManyDetachSt st relation (getField (st.heap.get objRef) "id")
          (hasManyNewIds st children))
        relation (hasManyNewIds st children))
      opts (hasManyNewIds st children)
      hkid hSsub hStruthy2 children
      (hasManyDetachSt st relation (getField (st.heap.get objRef) "id")
        (hasManyNewIds st children))
      []
      (by simp only [hasManyDetachSt, Database.model_setTable]; exact h1)
      (by simp only [hasManyDetachSt, Database.model_setTable]; exact h2)
      (by exact hlt) (by exact hstab) hnodup
  refine ⟨st2, refs2, ?_, ?_, ?_, by exact hn2, ?_⟩
  · simp only [saveHasManyRelation]
    rw [hfoldeq]
  · rw [hm2]
    rfl
  · intro o2 ho2 hno
    rw [hf2 o2 (by exact ho2) hno]
    rfl
  · intro c hc
    rw [hcrec c hc]
    rfl

/-- One `saveRelationsStep` at a key that resolves to a `hasMany`
relation reduces to the `hasMany` strategy. -/
theorem saveRelationsStep_hasMany (saveFn : SaveFn) (spec : ModelSpec) (tn : String)
    (o : Nat) (opts : QOpts) (st : St) (srs : List SavedRelation) (rn : String)
    (relation : RelationDefn)
    (hfind : spec.availableRelations.find? (fun p => p.1 == rn) = some (rn, relation))
    (htype : relation.type = .hasMany) :
    saveRelationsStep saveFn spec tn o opts (.ok (st, srs)) rn
      = match saveHasManyRelation saveFn st tn o relation
          (getField (st.heap.get o) rn) opts with
        | .error e => .error e
        | .ok (st2, sr) => .ok (st2, srs ++ [sr]) := by
  simp only [saveRelationsStep, hfind, htype]

/-- `saveRelations` against a model registering exactly one `hasMany`
relation whose field the object carries: it runs the `hasMany` strategy
and grafts the result back, so every related object ends with its foreign
key set in place to the parent's identity, and every other pre-existing
heap object except the parent working copy is untouched. -/
theorem saveRelations_one_hasMany (fuel : Nat) (st : St) (tn rn : String) (o : Nat)
    (relation : RelationDefn) (children : List Nat) (opts : QOpts)
    (hspec : (st.db.model tn).availableRelations = [(rn, relation)])
    (htype : relation.type = .hasMany)
    (hval : getField (st.heap.get o) rn = .vArr children)
    (hkeys : (recordKeys (st.heap.get o)).Nodup)
    (hkid : relation.key ≠ "id")
    (h1 : (st.db.model relation.tableName).availableRelations = [])
    (h2 : (st.db.model relation.tableName).hooks = [])
    (hlt : ∀ c ∈ children, c < st.heap.next)
    (hstab : ∀ c ∈ children, IdStable (getField (st.heap.get c) "id"))
    (hnodup : children.Nodup)
    (honotin : o ∉ children) :
    ∃ st2,
      saveRelations (save (fuel+1)) st tn o opts = .ok (st2, o) ∧
      (∀ o2, o2 < st.heap.next → o2 ∉ children → o2 ≠ o →
        st2.heap.get o2 = st.heap.get o2) ∧
      (∀ c ∈ children, st2.heap.get c = setField (st.heap.get c) relation.key
        (getField (st.heap.get o) "id")) ∧
      st2.db.models = st.db.models ∧
      st.heap.next ≤ st2.heap.next := by
  have hmem : rn ∈ recordKeys (st.heap.get o) :=
    (hasField_iff_mem_keys _ _).mp
      (hasField_of_getField_ne _ _ (by rw [hval]; intro h; cases h))
  obtain ⟨st7, refs2, hstrat, hm7, hf7, hn7, hcrec7⟩ :=
    saveHasManyRelation_heap fuel st tn o relation children opts
      hkid h1 h2 hlt hstab hnodup
  have heq : saveRelations (save (fuel+1)) st tn o opts = .ok
      ({ st7 with heap := (st7.heap.set o
          (setField (st7.heap.get o) relation.name (Value.vArr ([] ++ refs2)))) }, o) := by
    simp only [saveRelations]
    rw [hspec]
    rw [if_neg (by simp)]
    rw [show (([(rn, relation)].map (fun p => p.1)) : List String) = [rn] from rfl]
    rw [filter_contains_singleton hkeys hmem]
    simp only [List.foldl_cons, List.foldl_nil]
    rw [saveRelationsStep_hasMany (save (fuel+1)) _ tn o opts st [] rn relation
      (by rw [hspec]; simp) htype]
    rw [hval, hstrat]
    rfl
  refine ⟨_, heq, ?_, ?_, ?_, ?_⟩
  · intro o2 ho2 hno hneo
    show (st7.heap.set o _).get o2 = st.heap.get o2
    rw [Heap.get_set_ne _ _ _ _ hneo]
    exact hf7 o2 ho2 hno
  · intro c hc
    show (st7.heap.set o _).get c = _
    rw [Heap.get_set_ne _ _ _ _ (fun he => honotin (by rw [← he]; exact hc))]
    exact hcrec7 c hc
  · exact hm7
  · show (st7.heap.set o _).next ≥ st.heap.next
    rw [Heap.next_set]
    exact hn7

/-! The hasAndBelongsToMany save loop, one step and then the whole fold. -/

/-- One `habtmStep` against a relation-free, hook-free related model, for
a related object that is already joined (its identity lies in `E`, the
join identities read before the loop): the child save succeeds and keeps
the child's identity, the joined-check suppresses the join-row insert, so
only the related table changes, no pre-existing heap object moves, and
row identities present in the related table stay present. -/
theorem habtmStep_spec (fuel : Nat) (relation : RelationDefn) (objectId : Value)
    (E X : List Value) (opts : QOpts) (st1 : St) (refs : List Nat) (c : Nat)
    (h1 : (st1.db.model relation.tableName).availableRelations = [])
    (h2 : (st1.db.model relation.tableName).hooks = [])
    (hc : c < st1.heap.next)
    (hstab : IdStable (getField (st1.heap.get c) "id"))
    (htruthy : (getField (st1.heap.get c) "id").truthy = true)
    (hknd : (recordKeys (st1.heap.get c)).Nodup)
    (hE : E.contains (getField (st1.heap.get c) "id") = true)
    (hex : ∃ row ∈ st1.db.table relation.tableName,
      getField row "id" = getField (st1.heap.get c) "id") :
    ∃ st2 ref2, habtmStep (save (fuel+1)) relation objectId E X opts
        (.ok (st1, refs)) c = .ok (st2, refs ++ [ref2]) ∧
      st2.db.models = st1.db.models ∧
      (∀ tn2, tn2 ≠ relation.tableName → st2.db.table tn2 = st1.db.table tn2) ∧
      (∀ o2, o2 < st1.heap.next → st2.heap.get o2 = st1.heap.get o2) ∧
      st1.heap.next ≤ st2.heap.next ∧
      (∀ v, (∃ row ∈ st1.db.table relation.tableName, getField row "id" = v) →
        (∃ row ∈ st2.db.table relation.tableName, getField row "id" = v)) := by
  obtain ⟨hobjt, hnn⟩ := hstab htruthy
  have hne := truthy_ne_undefined htruthy
  have hpid := (savePrepare_id st1 relation.tableName c
    { opts with exists? := some (X.contains (getField (st1.heap.get c) "id")) }
    (getField (st1.heap.get c) "id")
    (by rw [h1]; simp) rfl hne hobjt hnn).1
  obtain ⟨st2, ref2, heq2, hm2, ht2, hf2, hn2, hfalse2, htrue2, hidf, hidt⟩ :=
    save_noRelations fuel st1 relation.tableName c
      { opts with exists? := some (X.contains (getField (st1.heap.get c) "id")) }
      (X.contains (getField (st1.heap.get c) "id")) h1 h2 rfl
  have hsaved : getField (st2.heap.get ref2) "id" = getField (st1.heap.get c) "id" := by
    cases hx : X.contains (getField (st1.heap.get c) "id") with
    | false => exact (hidf hx).trans hpid
    | true =>
      refine (hidt hx ?_ hknd).trans hpid
      obtain ⟨row, hrow, hrid⟩ := hex
      exact ⟨row, hrow, hrid.trans hpid.symm⟩
  have hstep : habtmStep (save (fuel+1)) relation objectId E X opts
      (.ok (st1, refs)) c = .ok (st2, refs ++ [ref2]) := by
    simp only [habtmStep]
    rw [heq2]
    simp only []
    rw [show E.contains (getField (st2.heap.get ref2) "id") = true from by
      rw [hsaved]; exact hE]
    rfl
  refine ⟨st2, ref2, hstep, hm2, ht2, hf2, hn2, ?_⟩
  intro v hv
  obtain ⟨row, hrow, hrid⟩ := hv
  cases hx : X.contains (getField (st1.heap.get c) "id") with
  | false =>
    rw [hfalse2 hx]
    exact ⟨row, List.mem_append_left _ hrow, hrid⟩
  | true =>
    rw [htrue2 hx]
    refine ⟨if (getField row "id" == getField (savePrepare st1 relation.tableName c
        { opts with exists? := some (X.contains (getField (st1.heap.get c) "id")) }).screc
        "id") = true then
        mergeRecord row (savePrepare st1 relation.tableName c
          { opts with exists? := some (X.contains (getField (st1.heap.get c) "id")) }).screc
      else row, List.mem_map_of_mem _ hrow, ?_⟩
    by_cases hbe : (getField row "id" == getField (savePrepare st1 relation.tableName c
        { opts with exists? := some (X.contains (getField (st1.heap.get c) "id")) }).screc
        "id") = true
    · rw [if_pos hbe]
      have hrid2 : getField row "id" = getField (savePrepare st1 relation.tableName c
          { opts with exists? := some (X.contains (getField (st1.heap.get c) "id")) }).screc
          "id" := by simpa using hbe
      refine ((getField_mergeRecord_mem row _ "id" _
        (hasField_savePrepare_screc_id st1 relation.tableName c _)
        (fun p hp hpk =>
          (binding_eq_getField_of_nodup _
            (nodup_keys_savePrepare st1 relation.tableName c _ hknd) p hp).symm.trans
            (by rw [hpk]))).trans hrid2.symm).trans hrid
    · rw [if_neg hbe]
      exact hrid

/-- The whole hasAndBelongsToMany fold over already-joined related
objects: every child save succeeds and no join row is inserted, so the
through table (and every table other than the related one) is unchanged. -/
theorem habtmFold_spec (fuel : Nat) (relation : RelationDefn) (objectId : Value)
    (E X : List Value) (opts : QOpts) :
    ∀ (children : List Nat) (st1 : St) (refs : List Nat),
      (st1.db.model relation.tableName).availableRelations = [] →
      (st1.db.model relation.tableName).hooks = [] →
      (∀ c ∈ children, c < st1.heap.next) →
      (∀ c ∈ children, IdStable (getField (st1.heap.get c) "id")) →
      (∀ c ∈ children, (getField (st1.heap.get c) "id").truthy = true) →
      (∀ c ∈ children, (recordKeys (st1.heap.get c)).Nodup) →
      (∀ c ∈ children, E.contains (getField (st1.heap.get c) "id") = true) →
      (∀ c ∈ children, ∃ row ∈ st1.db.table relation.tableName,
        getField row "id" = getField (st1.heap.get c) "id") →
      ∃ st2 refs2,
        children.foldl (habtmStep (save (fuel+1)) relation objectId E X opts)
          (.ok (st1, refs)) = .ok (st2, refs ++ refs2) ∧
        st2.db.models = st1.db.models ∧
        (∀ tn2, tn2 ≠ relation.tableName → st2.db.table tn2 = st1.db.table tn2) ∧
        (∀ o2, o2 < st1.heap.next → st2.heap.get o2 = st1.heap.get o2) ∧
        st1.heap.next ≤ st2.heap.next := by
  intro children
  induction children with
  | nil =>
    intro st1 refs _ _ _ _ _ _ _ _
    exact ⟨st1, [], by simp, rfl, fun _ _ => rfl, fun _ _ => rfl, le_refl _⟩
  | cons c rest ih =>
    intro st1 refs h1 h2 hlt hstab htruthy hknd hE hex
    obtain ⟨st2, ref2, hstep, hm2, ht2, hf2, hn2, hpres2⟩ :=
      habtmStep_spec fuel relation objectId E X opts st1 refs c h1 h2
        (hlt c (List.mem_cons_self c rest)) (hstab c (List.mem_cons_self c rest))
        (htruthy c (List.mem_cons_self c rest)) (hknd c (List.mem_cons_self c rest))
        (hE c (List.mem_cons_self c rest)) (hex c (List.mem_cons_self c rest))
    have hget2 : ∀ c2 ∈ rest, st2.heap.get c2 = st1.heap.get c2 :=
      fun c2 hc2 => hf2 c2 (hlt c2 (List.mem_cons_of_mem c hc2))
    obtain ⟨st3, refs3, hfold, hm3, ht3, hf3, hn3⟩ :=
      ih st2 (refs ++ [ref2])
        (by rw [Database.model_congr_models st2.db st1.db relation.tableName hm2]; exact h1)
        (by rw [Database.model_congr_models st2.db st1.db relation.tableName hm2]; exact h2)
        (fun c2 hc2 => lt_of_lt_of_le (hlt c2 (List.mem_cons_of_mem c hc2)) hn2)
        (fun c2 hc2 => by
          rw [hget2 c2 hc2]
          exact hstab c2 (List.mem_cons_of_mem c hc2))
        (fun c2 hc2 => by
          rw [hget2 c2 hc2]
          exact htruthy c2 (List.mem_cons_of_mem c hc2))
        (fun c2 hc2 => by
          rw [hget2 c2 hc2]
          exact hknd c2 (List.mem_cons_of_mem c hc2))
        (fun c2 hc2 => by
          rw [hget2 c2 hc2]
          exact hE c2 (List.mem_cons_of_mem c hc2))
        (fun c2 hc2 => by
          rw [hget2 c2 hc2]
          exact hpres2 _ (hex c2 (List.mem_cons_of_mem c hc2)))
    refine ⟨st3, ref2 :: refs3, ?_, hm3.trans hm2,
      fun tn2 h => (ht3 tn2 h).trans (ht2 tn2 h), ?_, le_trans hn2 hn3⟩
    · rw [List.foldl_cons, hstep, hfold, List.append_assoc, List.singleton_append]
    · intro o2 ho2
      exact (hf3 o2 (lt_of_lt_of_le ho2 hn2)).trans (hf2 o2 ho2)

/-- Claim C1: `hasAndBelongsToMany` reconciliation is idempotent. For a
parent already saved with related set `children` — every join row of the
parent points at one of the children's identities, every child has a join
row and a related-table row, and the children's identities are truthy,
stable and distinct — running the strategy again inserts no join row and
deletes none: the through table is exactly what it was. Stated for a
relation-free, hook-free related model and a through table distinct from
the related table. -/
theorem c1_habtm_idempotent (fuel : Nat) (st : St) (tableName : String) (objRef : Nat)
    (relation : RelationDefn) (children : List Nat) (opts : QOpts) (thr sk : String)
    (hthr : relation.throughTable = some thr)
    (hsk : relation.sourceKey = some sk)
    (hthrne : thr ≠ relation.tableName)
    (h1 : (st.db.model relation.tableName).availableRelations = [])
    (h2 : (st.db.model relation.tableName).hooks = [])
    (hlt : ∀ c ∈ children, c < st.heap.next)
    (hstab : ∀ c ∈ children, IdStable (getField (st.heap.get c) "id"))
    (htruthy : ∀ c ∈ children, (getField (st.heap.get c) "id").truthy = true)
    (hknd : ∀ c ∈ children, (recordKeys (st.heap.get c)).Nodup)
    (hcov : ∀ row ∈ st.db.table thr,
      (getField row sk == getField (st.heap.get objRef) "id") = true →
      getField row relation.key ∈ children.map (fun c => getField (st.heap.get c) "id"))
    (hjoin : ∀ c ∈ children, ∃ row ∈ st.db.table thr,
      (getField row sk == getField (st.heap.get objRef) "id") = true ∧
      getField row relation.key = getField (st.heap.get c) "id")
    (hex : ∀ c ∈ children, ∃ row ∈ st.db.table relation.tableName,
      getField row "id" = getField (st.heap.get c) "id") :
    ∃ st2 sr,
      saveHasAndBelongsToManyRelation (save (fuel+1)) st tableName objRef relation
        (.vArr children) opts = .ok (st2, sr) ∧
      st2.db.table thr = st.db.table thr := by
  have hthrg : relation.throughTable.getD "" = thr := by rw [hthr]; rfl
  have hskg : relation.sourceKey.getD "" = sk := by rw [hsk]; rfl
  -- every child identity is among the new related identities
  have hmemNew : ∀ c ∈ children,
      getField (st.heap.get c) "id" ∈ hasManyNewIds st children := by
    intro c hc
    exact List.mem_filter.mpr
      ⟨List.mem_map_of_mem _ hc, by simpa using htruthy c hc⟩
  -- the delete stage removes nothing
  have hkeep : habtmJoinKeep st relation (getField (st.heap.get objRef) "id")
      (hasManyNewIds st children) = st.db.table thr := by
    unfold habtmJoinKeep
    rw [hthrg, hskg]
    rw [List.filter_eq_self]
    intro row hrow
    cases hsrc : (getField row sk == getField (st.heap.get objRef) "id") with
    | false => simp [hsrc]
    | true =>
      have hkv := hcov row hrow hsrc
      obtain ⟨c, hc, hcv⟩ := List.mem_map.mp hkv
      have : getField row relation.key ∈ hasManyNewIds st children := by
        rw [← hcv]
        exact hmemNew c hc
      simp [hsrc, this]
  -- the pruned state: same heap, same related table, same models
  have hst1t : ∀ tn2, tn2 ≠ thr →
      (habtmSt1 st relation (getField (st.heap.get objRef) "id")
        (hasManyNewIds st children)).db.table tn2 = st.db.table tn2 := by
    intro tn2 htn2
    simp only [habtmSt1]
    rw [hthrg]
    exact Database.table_setTable_ne _ _ _ _ htn2
  have hst1thr : (habtmSt1 st relation (getField (st.heap.get objRef) "id")
      (hasManyNewIds st children)).db.table thr = st.db.table thr := by
    simp only [habtmSt1]
    rw [hthrg]
    rw [Database.table_setTable_self]
    exact hkeep
  -- every child identity is already joined
  have hE : ∀ c ∈ children,
      (habtmExistingJoined st relation (getField (st.heap.get objRef) "id")).contains
        (getField (st.heap.get c) "id") = true := by
    intro c hc
    obtain ⟨row, hrow, hsrc, hkv⟩ := hjoin c hc
    have : getField (st.heap.get c) "id"
        ∈ habtmExistingJoined st relation (getField (st.heap.get objRef) "id") := by
      unfold habtmExistingJoined
      rw [hthrg, hskg]
      rw [← hkv]
      exact List.mem_map_of_mem _ (List.mem_filter.mpr ⟨hrow, hsrc⟩)
    simpa using this
  obtain ⟨st2, refs2, hfoldeq, hm2, ht2, hf2, hn2⟩ :=
    habtmFold_spec fuel relation (getField (st.heap.get objRef) "id")
      (habtmExistingJoined st relation (getField (st.heap.get objRef) "id"))
      (habtmExistingIds
        (habtmSt1 st relation (getField (st.heap.get objRef) "id")
          (hasManyNewIds st children))
        relation (hasManyNewIds st children))
      opts children
      (habtmSt1 st relation (getField (st.heap.get objRef) "id")
        (hasManyNewIds st children))
      []
      (by simp only [habtmSt1, Database.model_setTable]; exact h1)
      (by simp only [habtmSt1, Database.model_setTable]; exact h2)
      (by exact hlt) (by exact hstab) (by exact htruthy) (by exact hknd)
      (by exact hE)
      (by
        intro c hc
        rw [show (habtmSt1 st relation (getField (st.heap.get objRef) "id")
            (hasManyNewIds st children)).db.table relation.tableName
            = st.db.table relation.tableName from hst1t _ (fun he => hthrne he.symm)]
        exact hex c hc)
  refine ⟨st2, ⟨relation.name, Value.vArr ([] ++ refs2), none, .vUndefined⟩, ?_, ?_⟩
  · simp only [saveHasAndBelongsToManyRelation]
    rw [hfoldeq]
  · rw [ht2 thr hthrne]
    exact hst1thr

/-- Witness for C1 at a concrete state: re-saving user `u1`, already
joined to its one related project `p1` through join row `j1`, leaves the
`projects_users` table exactly as it was. -/
theorem c1_habtm_idempotent_witness :
    ∃ st2 sr,
      saveHasAndBelongsToManyRelation (save 2) stHabtmEx "users" 0 exHabtmRel
        (.vArr [1]) {} = .ok (st2, sr) ∧
      st2.db.table "projects_users" = stHabtmEx.db.table "projects_users" :=
  c1_habtm_idempotent 1 stHabtmEx "users" 0 exHabtmRel [1] {} "projects_users" "userId"
    (by decide) (by decide) (by decide) (by decide) (by decide) (by decide)
    (by intro c hc; simp at hc; subst hc; intro hv; exact ⟨by decide, by decide⟩)
    (by decide) (by decide) (by decide) (by decide) (by decide)

/-- Claim C4: when saving a parent's `hasMany` relation with related
values `children`, every existing related-table row whose foreign-key
column equals the parent's identity and whose id is not among the truthy
identities of `children` is updated — its foreign-key column set to null —
and the detached row (so updated) is still present in the related table
after the strategy completes: it is never deleted. Stated for a related
model with no relations or hooks of its own, distinct related objects,
and an id column distinct from the foreign key. -/
theorem c4_hasMany_detach (fuel : Nat) (st : St) (tableName : String) (objRef : Nat)
    (relation : RelationDefn) (children : List Nat) (opts : QOpts) (row : Record)
    (hkid : relation.key ≠ "id")
    (h1 : (st.db.model relation.tableName).availableRelations = [])
    (h2 : (st.db.model relation.tableName).hooks = [])
    (hlt : ∀ c ∈ children, c < st.heap.next)
    (hstab : ∀ c ∈ children, IdStable (getField (st.heap.get c) "id"))
    (hnodup : children.Nodup)
    (hrow : row ∈ st.db.table relation.tableName)
    (hfk : getField row relation.key = getField (st.heap.get objRef) "id")
    (hnotin : getField row "id" ∉
      (children.map (fun o => getField (st.heap.get o) "id")).filter
        (fun v => v.truthy)) :
    ∃ st2 sr,
      saveHasManyRelation (save (fuel+1)) st tableName objRef relation
        (.vArr children) opts = .ok (st2, sr) ∧
      setField row relation.key Value.vNull ∈ st2.db.table relation.tableName := by
  have hnotin2 : getField row "id" ∉ hasManyNewIds st children := hnotin
  have hSsub : ∀ v ∈ hasManyExisting
        (hasManyDetachSt st relation (getField (st.heap.get objRef) "id")
          (hasManyNewIds st children))
        relation (hasManyNewIds st children),
      v ∈ hasManyNewIds st children := by
    intro v hv
    obtain ⟨r, hr, hrv⟩ := List.mem_map.mp hv
    exact hrv ▸ mem_of_contains ((List.mem_filter.mp hr).2)
  have hStruthy : ∀ v ∈ hasManyNewIds st children, v.truthy = true := by
    intro v hv
    simpa using (List.mem_filter.mp hv).2
  obtain ⟨st2, refs2, hfoldeq, hm2, ht2, hf2, hn2, hcrec, hrows⟩ :=
    hasManyFold_spec fuel relation (getField (st.heap.get objRef) "id")
      (hasManyExisting
        (hasManyDetachSt st relation (getField (st.heap.get objRef) "id")
          (hasManyNewIds st children))
        relation (hasManyNewIds st children))
      opts (hasManyNewIds st children)
      hkid hSsub hStruthy children
      (hasManyDetachSt st relation (getField (st.heap.get objRef) "id")
        (hasManyNewIds st children))
      []
      (by simp only [hasManyDetachSt, Database.model_setTable]; exact h1)
      (by simp only [hasManyDetachSt, Database.model_setTable]; exact h2)
      (by exact hlt) (by exact hstab) hnodup
  refine ⟨st2, ⟨relation.name, Value.vArr ([] ++ refs2), none, .vUndefined⟩, ?_, ?_⟩
  · simp only [saveHasManyRelation]
    rw [hfoldeq]
  · apply hrows
    · show setField row relation.key Value.vNull ∈
        (hasManyDetachSt st relation (getField (st.heap.get objRef) "id")
          (hasManyNewIds st children)).db.table relation.tableName
      simp only [hasManyDetachSt]
      rw [Database.table_setTable_self]
      unfold hasManyDetach
      refine List.mem_map.mpr ⟨row, hrow, ?_⟩
      have hc2 : (hasManyNewIds st children).contains (getField row "id") = false := by
        cases hh : (hasManyNewIds st children).contains (getField row "id")
        · rfl
        · exact absurd (mem_of_contains hh) hnotin2
      simp [hfk, hc2]
      intro hmem
      exact absurd hmem hnotin2
    · rw [getField_setField_ne _ _ _ _ (fun he => hkid he.symm)]
      exact hnotin2

/-- Witness for C4 at a concrete state: user `u1` keeps project `p1` in
its related set, so the stale row `p9` (still pointing at `u1`) is
detached in place — its `userId` set to null — and remains in the
`projects` table. -/
theorem c4_hasMany_detach_witness :
    ∃ st2 sr,
      saveHasManyRelation (save 2) stDetachEx "users" 0 exHasManyRel
        (.vArr [1]) {} = .ok (st2, sr) ∧
      setField [("id", Value.vStr "p9"), ("userId", Value.vStr "u1")]
        "userId" Value.vNull ∈ st2.db.table "projects" :=
  c4_hasMany_detach 1 stDetachEx "users" 0 exHasManyRel [1] {}
    [("id", Value.vStr "p9"), ("userId", Value.vStr "u1")]
    (by decide) (by decide) (by decide) (by decide)
    (by intro c hc; simp at hc; subst hc; intro hv; exact ⟨by decide, by decide⟩)
    (by decide) (by decide) (by decide) (by decide)

/-! Claim C2: throwing before-hooks cancel the operation. -/

/-- Claim C2: a throwing `beforeSave` hook always cancels a save, and a
throwing `beforeCreate` hook cancels it when the record does not yet
exist; a throwing `beforeDestroy` hook cancels a destroy. In every case
the operation returns `.ok` with the caller's original object reference
(relation fields included, since the original object is untouched), the
database is unchanged (no insert, update or delete), and the hook's error
is not re-thrown. Stated for records carrying a stable identity whose
`"id"` field is not a relation name. -/
theorem c2_hook_cancel (fuel : Nat) (st : St) (tableName : String) (objRef : Nat)
    (opts : QOpts) (idv : Value)
    (hobj : objRef < st.heap.next)
    (hid : getField (st.heap.get objRef) "id" = idv)
    (hne : idv ≠ .vUndefined) (hobjt : idv.isObjectType = false) (hnn : idv ≠ .vStr "null")
    (hidrel : "id" ∉ (st.db.model tableName).availableRelations.map (fun p => p.1))
    (hskip : opts.skipHooks = false) :
    (hookThrows (st.db.model tableName) "beforeSave" = true →
      ∃ st2, save (fuel+1) st tableName objRef opts = .ok (st2, objRef) ∧
        st2.db = st.db ∧ st2.heap.get objRef = st.heap.get objRef) ∧
    (hookThrows (st.db.model tableName) "beforeCreate" = true →
      recordExists st.db tableName idv opts = false →
      ∃ st2, save (fuel+1) st tableName objRef opts = .ok (st2, objRef) ∧
        st2.db = st.db ∧ st2.heap.get objRef = st.heap.get objRef) ∧
    (hookThrows (st.db.model tableName) "beforeDestroy" = true →
      destroy st tableName objRef opts = .ok (st, objRef)) := by
  obtain ⟨hdb, hskip2, _, _, _, _, hframe⟩ := savePrepare_frame st tableName objRef opts
  obtain ⟨_, hex⟩ := savePrepare_id st tableName objRef opts idv hidrel hid hne hobjt hnn
  refine ⟨?_, ?_, ?_⟩
  · intro hbs
    refine ⟨(savePrepare st tableName objRef opts).st, ?_, hdb,
      hframe objRef (Nat.ne_of_lt hobj)⟩
    simp only [save]
    rw [if_pos (by rw [hskip2, hskip, hbs]; simp)]
  · intro hbc hrex
    refine ⟨(savePrepare st tableName objRef opts).st, ?_, hdb,
      hframe objRef (Nat.ne_of_lt hobj)⟩
    simp only [save]
    rw [if_pos (by rw [hskip2, hskip, hex, hrex, hbc]; simp)]
  · intro hbd
    unfold destroy
    rw [if_pos (by rw [hskip, hbd]; simp)]

/-- Witness for C2 on a model whose `beforeSave` and `beforeDestroy` hooks
both throw: both the save and the destroy return the original reference
with the database untouched. -/
theorem c2_hook_cancel_witness :
    (∃ st2, save 3 stHookEx "users" 0 {} = .ok (st2, 0) ∧
      st2.db = stHookEx.db ∧ st2.heap.get 0 = stHookEx.heap.get 0) ∧
    destroy stHookEx "users" 0 {} = .ok (stHookEx, 0) := by
  obtain ⟨h1, _, h3⟩ := c2_hook_cancel 2 stHookEx "users" 0 {} (Value.vStr "u1")
    (by decide) (by decide) (by decide) (by decide) (by decide) (by decide) rfl
  exact ⟨h1 (by decide), h3 (by decide)⟩

/-! Claim C7: eager loading an unknown relation name. -/

/-- Claim C7 (evaluation at the failing input): eager loading a non-empty
result set with a relation name that is not registered fails with a
JavaScript `TypeError` — `relation.tableName` is dereferenced at `util.ts`
L846 before the `typeof relation === "undefined"` guard at L849 — so the
intended `RelationError` ("UnknownRelationName") is dead code and is never
thrown. -/
theorem c7_unknown_relation_name_type_error :
    includeRelations stIncludeEx "users" [0] ["nothing"] =
      .error (.typeError "Cannot read properties of undefined (reading tableName)") ∧
    ∀ m, includeRelations stIncludeEx "users" [0] ["nothing"] ≠
      .error (.relationError m) := by
  refine ⟨rfl, fun m h => ?_⟩
  rw [(rfl : includeRelations stIncludeEx "users" [0] ["nothing"] =
    .error (.typeError "Cannot read properties of undefined (reading tableName)"))] at h
  injection h with h2
  injection h2

/-! Claim C3: the shared save timestamp. -/

/-- Claim C3 (evaluation at the failing input): saving a user with one
attached `hasMany` project writes `updatedAt = 0` (the first `new Date()`)
to the parent row but `updatedAt = 1` (a second, fresh `new Date()`) to
the child row, because every nested save's option spread (`util.ts` L283)
overwrites the inherited `options.updatedAt`. Each *individual* insert
does set `createdAt` equal to its own `updatedAt`, but the single shared
timestamp the spec promises does not survive into the relation saves. -/
theorem c3_updatedAt_not_shared :
    ∃ st2 ref, save 5 stHasManyEx "users" 0 {} = .ok (st2, ref) ∧
      (st2.db.table "users").map (fun row => getField row "updatedAt") = [Value.vDate 0] ∧
      (st2.db.table "projects").map (fun row => getField row "updatedAt") = [Value.vDate 1] ∧
      (st2.db.table "users").map (fun row => getField row "createdAt") = [Value.vDate 0] ∧
      (st2.db.table "projects").map (fun row => getField row "createdAt") = [Value.vDate 1] ∧
      Value.vDate 0 ≠ Value.vDate 1 :=
  ⟨_, _, rfl, rfl, rfl, rfl, rfl, by decide⟩

/-! Claim C8: mutation of the caller's objects. -/

/-- Claim C8 counterexample: saving a user whose `hasMany` projects list
holds the caller's project object (heap object 1) mutates that related
object in place — `saveHasManyRelation` assigns the foreign key at
`util.ts` L683 — so a record object reachable from the input does *not*
keep the field values it held before the call. -/
theorem c8_counterexample :
    ∃ st2 ref, save 5 stHasManyEx "users" 0 {} = .ok (st2, ref) ∧
      getField (stHasManyEx.heap.get 1) "userId" = Value.vUndefined ∧
      getField (st2.heap.get 1) "userId" = Value.vStr "u1" :=
  ⟨_, _, rfl, rfl, rfl⟩

/-- Claim C8 (amended): `save` never mutates the caller's top-level record
object — the engine works on a shallow copy, so after a save of a new
parent through a single `hasMany` relation the parent's own heap object
holds exactly the field values it held before the call — while every
related record object reachable from it *is* mutated in place: its
foreign-key field is assigned the saved parent's identity. Stated for a
hook-free parent model with one `hasMany` relation, a relation-free
related model, and distinct well-formed related objects. -/
theorem c8_save_mutation_scope (fuel : Nat) (st : St) (tableName rn : String)
    (objRef : Nat) (relation : RelationDefn) (children : List Nat) (opts : QOpts)
    (hspec : (st.db.model tableName).availableRelations = [(rn, relation)])
    (hhooks : (st.db.model tableName).hooks = [])
    (htype : relation.type = .hasMany)
    (hval : getField (st.heap.get objRef) rn = .vArr children)
    (hkeys : (recordKeys (st.heap.get objRef)).Nodup)
    (hrnid : rn ≠ "id")
    (hkid : relation.key ≠ "id")
    (hrel1 : (st.db.model relation.tableName).availableRelations = [])
    (hrel2 : (st.db.model relation.tableName).hooks = [])
    (hobj : objRef < st.heap.next)
    (hlt : ∀ c ∈ children, c < st.heap.next)
    (hstab : ∀ c ∈ children, IdStable (getField (st.heap.get c) "id"))
    (hnodup : children.Nodup)
    (hnoself : objRef ∉ children)
    (hexf : (savePrepare st tableName objRef opts).exists? = false) :
    ∃ st2 ref2, save (fuel+1+1) st tableName objRef opts = .ok (st2, ref2) ∧
      st2.heap.get objRef = st.heap.get objRef ∧
      (∀ c ∈ children, st2.heap.get c = setField (st.heap.get c) relation.key
        (getField (savePrepare st tableName objRef opts).screc "id")) := by
  obtain ⟨hdb, hsk, hexo, hupd, hscRef, hnext, hframe⟩ :=
    savePrepare_frame st tableName objRef opts
  obtain ⟨wm, wh, wt, wfalse, wtrue⟩ :=
    saveWrite_spec tableName (savePrepare st tableName objRef opts)
  obtain ⟨htw, hres0⟩ := wfalse hexf
  have hmem : rn ∈ recordKeys (st.heap.get objRef) :=
    (hasField_iff_mem_keys _ _).mp
      (hasField_of_getField_ne _ _ (by rw [hval]; intro h; cases h))
  have hrelone := savePrepare_relations_one st tableName objRef opts rn relation
    hspec hmem hkeys
  have hscRef2 : ((saveWrite tableName (savePrepare st tableName objRef opts)).1.heap.alloc
      (saveWrite tableName (savePrepare st tableName objRef opts)).2).2
      = st.heap.next + 1 := by
    show (saveWrite tableName (savePrepare st tableName objRef opts)).1.heap.next
      = st.heap.next + 1
    rw [wh, hnext]
  have main : ∀ (st6 : St) (scRef2 : Nat),
      st6.heap = ((((saveWrite tableName (savePrepare st tableName objRef opts)).1.heap.alloc
          (saveWrite tableName (savePrepare st tableName objRef opts)).2).1).set
        (((saveWrite tableName (savePrepare st tableName objRef opts)).1.heap.alloc
          (saveWrite tableName (savePrepare st tableName objRef opts)).2).2)
        ((savePrepare st tableName objRef opts).relations.foldl
          (fun r p => setField r p.1 p.2)
          (saveWrite tableName (savePrepare st tableName objRef opts)).2)) →
      st6.db = (saveWrite tableName (savePrepare st tableName objRef opts)).1.db →
      scRef2 = st.heap.next + 1 →
      ∃ st8, saveRelations (save (fuel+1)) st6 tableName scRef2
          (savePrepare st tableName objRef opts).opts = .ok (st8, scRef2) ∧
        st8.heap.get objRef = st.heap.get objRef ∧
        (∀ c ∈ children, st8.heap.get c = setField (st.heap.get c) relation.key
          (getField (savePrepare st tableName objRef opts).screc "id")) := by
    intro st6 scRef2 h6h h6d ho2v
    have hm6 : st6.db.models = st.db.models := by rw [h6d, wm, hdb]
    have hspec6 : (st6.db.model tableName).availableRelations = [(rn, relation)] := by
      rw [Database.model_congr_models _ st.db _ hm6]
      exact hspec
    have hrel16 : (st6.db.model relation.tableName).availableRelations = [] := by
      rw [Database.model_congr_models _ st.db _ hm6]
      exact hrel1
    have hrel26 : (st6.db.model relation.tableName).hooks = [] := by
      rw [Database.model_congr_models _ st.db _ hm6]
      exact hrel2
    have hchain : ∀ o2, o2 < st.heap.next → st6.heap.get o2 = st.heap.get o2 := by
      intro o2 ho2
      rw [h6h]
      rw [Heap.get_set_ne _ _ _ _ (by rw [hscRef2]; omega)]
      rw [Heap.get_alloc_ne _ _ _ (by rw [wh, hnext]; omega)]
      rw [wh]
      exact hframe o2 (by omega)
    have hget6 : st6.heap.get scRef2
        = setField (saveWrite tableName (savePrepare st tableName objRef opts)).2 rn
          (getField (st.heap.get objRef) rn) := by
      rw [h6h, ho2v, hscRef2, Heap.get_set_self, hrelone]
      simp only [List.foldl_cons, List.foldl_nil]
    have hval6 : getField (st6.heap.get scRef2) rn = .vArr children := by
      rw [hget6, getField_setField_self]
      exact hval
    have hkeys6 : (recordKeys (st6.heap.get scRef2)).Nodup := by
      rw [hget6]
      exact nodup_keys_setField _ _ _ (by
        rw [hres0]
        exact nodup_keys_setField _ _ _
          (nodup_keys_savePrepare st tableName objRef opts hkeys))
    have hnext6 : st6.heap.next = st.heap.next + 2 := by
      rw [h6h, Heap.next_set]
      show (saveWrite tableName (savePrepare st tableName objRef opts)).1.heap.next + 1
        = st.heap.next + 2
      rw [wh, hnext]
    have hlt6 : ∀ c ∈ children, c < st6.heap.next := by
      intro c hc
      rw [hnext6]
      have := hlt c hc
      omega
    have hstab6 : ∀ c ∈ children, IdStable (getField (st6.heap.get c) "id") := by
      intro c hc
      rw [hchain c (hlt c hc)]
      exact hstab c hc
    have hnotin6 : scRef2 ∉ children := by
      intro hmem2
      have := hlt _ hmem2
      omega
    obtain ⟨st8, hsrel, hframe8, hchild8, hm8, hn8⟩ :=
      saveRelations_one_hasMany fuel st6 tableName rn scRef2 relation children
        (savePrepare st tableName objRef opts).opts
        hspec6 htype hval6 hkeys6 hkid hrel16 hrel26 hlt6 hstab6 hnodup hnotin6
    refine ⟨st8, hsrel, ?_, ?_⟩
    · rw [hframe8 objRef (by rw [hnext6]; omega) hnoself (by rw [ho2v]; omega)]
      exact hchain objRef hobj
    · intro c hc
      rw [hchild8 c hc, hchain c (hlt c hc)]
      congr 1
      rw [hget6]
      rw [getField_setField_ne _ _ _ _ (fun he => hrnid he.symm)]
      rw [hres0]
      rw [getField_setField_ne _ _ _ _ (by decide)]
  have hfin : ∀ (st6 : St) (scRef2 : Nat),
      st6.heap = ((((saveWrite tableName (savePrepare st tableName objRef opts)).1.heap.alloc
          (saveWrite tableName (savePrepare st tableName objRef opts)).2).1).set
        (((saveWrite tableName (savePrepare st tableName objRef opts)).1.heap.alloc
          (saveWrite tableName (savePrepare st tableName objRef opts)).2).2)
        ((savePrepare st tableName objRef opts).relations.foldl
          (fun r p => setField r p.1 p.2)
          (saveWrite tableName (savePrepare st tableName objRef opts)).2)) →
      st6.db = (saveWrite tableName (savePrepare st tableName objRef opts)).1.db →
      scRef2 = st.heap.next + 1 →
      ∃ st2 ref2,
        (match saveRelations (save (fuel+1)) st6 tableName scRef2
            (savePrepare st tableName objRef opts).opts with
          | Except.error e => (Except.error e : Except JsErr (St × Nat))
          | Except.ok res => saveAfterHooks (st.db.model tableName)
              (savePrepare st tableName objRef opts).opts
              (savePrepare st tableName objRef opts).exists? res)
          = .ok (st2, ref2) ∧
        st2.heap.get objRef = st.heap.get objRef ∧
        (∀ c ∈ children, st2.heap.get c = setField (st.heap.get c) relation.key
          (getField (savePrepare st tableName objRef opts).screc "id")) := by
    intro st6 scRef2 h6h h6d ho2v
    obtain ⟨st8, hsrel, hobjp, hchildp⟩ := main st6 scRef2 h6h h6d ho2v
    refine ⟨st8, scRef2, ?_, hobjp, hchildp⟩
    rw [hsrel]
    simp only []
    rw [saveAfterHooks_empty _ _ _ _ hhooks]
  simp only [save]
  rw [if_neg (by
    rw [hookThrows_empty _ hhooks "beforeCreate", hookThrows_empty _ hhooks "beforeSave"]
    simp)]
  exact hfin _ _ rfl rfl hscRef2

/-- Witness for C8 (amended) at a concrete state: saving fresh user `u1`
with its `hasMany` projects list `[p1]` leaves the caller's user object
untouched but rewrites the caller's project object in place, its `userId`
now the parent's identity. -/
theorem c8_save_mutation_scope_witness :
    ∃ st2 ref2, save 2 stHasManyEx "users" 0 {} = .ok (st2, ref2) ∧
      st2.heap.get 0 = stHasManyEx.heap.get 0 ∧
      (∀ c ∈ [1], st2.heap.get c = setField (stHasManyEx.heap.get c) "userId"
        (getField (savePrepare stHasManyEx "users" 0 {}).screc "id")) :=
  c8_save_mutation_scope 0 stHasManyEx "users" "projects" 0 exHasManyRel [1] {}
    (by decide) (by decide) (by decide) (by decide) (by decide) (by decide)
    (by decide) (by decide) (by decide) (by decide) (by decide)
    (by intro c hc; simp at hc; subst hc; intro hv; exact ⟨by decide, by decide⟩)
    (by decide) (by decide) (by decide)

end NData
